import Mathlib

/-!
# Verification of the `ap-maze` maze generator and shortest-path engine

Shallow embedding of the Go package `maze` (files `generate.go`, `game.go`
and the tile/loader file) into Lean 4, together with proofs and refutations
of the specified properties.

Modelling conventions:
* Go `int` values are modelled as `Int`; the only arithmetic operation that
  can overflow in the modelled code is the `+ 1` in `CreateSpt`, modelled
  faithfully by `goAdd1` (64-bit two's-complement wrap-around).
* Go slices of tiles are modelled as `List (List Tile)` with `Tile := Char`
  (the Go source declares `type Tile rune`).
* An out-of-range index access, a `make` with negative size, or
  `rand.Intn(n)` with `n <= 0` panics in Go; panics are modelled by the
  `RunRes.crash` outcome (`Option.none` in inner helpers).
* The pseudo-random generators are modelled as explicit streams
  `Nat → Nat`: `rand.Intn n` consumes the next stream value `v` and returns
  `v % n`.  `GenerateMaze` draws its initial cell from the seeded local
  generator (stream `sR`) and — exactly as the source does at
  `generate.go:85` — draws every direction choice from the package-global
  generator (stream `gR`), which is shared process state, not a function of
  the seed argument.
* All loops are written with explicit fuel; running out of fuel yields the
  distinguished outcome `RunRes.fuelOut`, never confused with normal
  termination, an error, or a panic.
-/

namespace ApMaze

/-- Outcome of running a modelled Go function: `crash` is a runtime panic,
`err` a returned Go `error`, `ok` a normal return, `fuelOut` means the fuel
bound of the model was exhausted (no Go counterpart). -/
inductive RunRes (α : Type) where
  | crash : RunRes α
  | err : String → RunRes α
  | fuelOut : RunRes α
  | ok : α → RunRes α
deriving DecidableEq, Repr

/-- `math.MaxInt` for Go's 64-bit `int`. -/
def maxInt : Int := 2 ^ 63 - 1

/-- Smallest Go 64-bit `int`. -/
def minInt : Int := -(2 ^ 63)

/-- Go `x + 1` on 64-bit `int`, with two's-complement wrap-around. -/
def goAdd1 (a : Int) : Int := (a + 1 + 2 ^ 63) % 2 ^ 64 - 2 ^ 63

/-- Go `rand.Intn n` (on either generator): panics when `n ≤ 0`, otherwise
returns the next stream value reduced mod `n`. -/
def goIntn (s : Nat → Nat) (k : Nat) (n : Int) : Option Int :=
  if n ≤ 0 then none else some ((s k % n.toNat : Nat) : Int)

/-- Go `type Tile rune`. -/
abbrev Tile : Type := Char

def TILE_EMPTY : Tile := '.'
def TILE_WALL : Tile := '#'
def TILE_START : Tile := '>'
def TILE_END : Tile := '<'

/-- Go `type Coords struct { X, Y int }`. -/
structure Coords where
  X : Int
  Y : Int
deriving DecidableEq, Repr

/-- The board: `[][]Tile`. -/
abbrev Board : Type := List (List Tile)

/-- Go `type Maze struct`. -/
structure Maze where
  Board : Board
  Start : Coords
  End : Coords
  PathLen : Int
  Width : Int
  Height : Int
deriving DecidableEq, Repr

/-- Read `g[y][x]` from a 2-D slice; `none` models the index-out-of-range
panic. -/
def gget {α : Type} (g : List (List α)) (y x : Int) : Option α :=
  if y < 0 ∨ x < 0 then none
  else match g[y.toNat]? with
    | none => none
    | some row => row[x.toNat]?

/-- Write `g[y][x] = c`; `none` models the index-out-of-range panic. -/
def gset {α : Type} (g : List (List α)) (y x : Int) (c : α) :
    Option (List (List α)) :=
  match gget g y x with
  | none => none
  | some _ =>
      some (g.set y.toNat ((g.getD y.toNat []).set x.toNat c))

/-! ## The priority queue of `game.go`

`pointQueue` is a slice of `item`s managed by `container/heap`.
The `index` field of `item` is only written by the heap bookkeeping and
never influences control flow, so it is erased from the model.
`heap.Push` appends the new item and sifts it up.  The code of `CreateSpt`
pops with `pq.Pop()` — the raw slice method, which removes the *last*
element — rather than `heap.Pop(&pq)`, and that is modelled exactly. -/

structure QItem where
  pos : Coords
  weight : Int
deriving DecidableEq, Repr

/-- Weight of queue slot `i` (slots used are always in bounds). -/
def qwgt (q : List QItem) (i : Nat) : Int :=
  ((q[i]?).map QItem.weight).getD 0

/-- Swap two slots of the queue (Go `h.Swap(i, j)`). -/
def lswap (q : List QItem) (i j : Nat) : List QItem :=
  match q[i]?, q[j]? with
  | some a, some b => (q.set i b).set j a
  | _, _ => q

/-- The `up` sift of `container/heap`, specialised to `pointQueue.Less`
(compare weights), with a structural counter: the second argument is the
index `j` of the item being sifted, the first a fuel bound.  Since the
parent index `jj / 2` is strictly below `jj + 1`, fuel `j` always
suffices; `siftUp` below instantiates it that way. -/
def siftUpF : Nat → List QItem → Nat → List QItem
  | 0, q, _ => q
  | _ + 1, q, 0 => q
  | f + 1, q, jj + 1 =>
      if qwgt q (jj + 1) < qwgt q (jj / 2) then siftUpF f (lswap q (jj / 2) (jj + 1)) (jj / 2)
      else q

/-- The `up` sift of `container/heap` starting at index `j`. -/
def siftUp (q : List QItem) (j : Nat) : List QItem :=
  siftUpF j q j

/-- `heap.Push(&pq, it)`: append then sift up from the last slot. -/
def heapPush (q : List QItem) (it : QItem) : List QItem :=
  siftUp (q ++ [it]) q.length

/-- The four adjacency probes of `CreateSpt` (game.go:439-450), in source
order `-Y, +Y, +X, -X`; a board read out of range is a panic (`none`). -/
def adjOf (b : Board) (p : Coords) : Option (List Coords) := do
  let t1 ← gget b (p.Y * 2) (p.X * 2 + 1)
  let t2 ← gget b (p.Y * 2 + 2) (p.X * 2 + 1)
  let t3 ← gget b (p.Y * 2 + 1) (p.X * 2 + 2)
  let t4 ← gget b (p.Y * 2 + 1) (p.X * 2)
  let a1 := if t1 = TILE_EMPTY then [Coords.mk p.X (p.Y - 1)] else []
  let a2 := if t2 = TILE_EMPTY then [Coords.mk p.X (p.Y + 1)] else []
  let a3 := if t3 = TILE_EMPTY then [Coords.mk (p.X + 1) p.Y] else []
  let a4 := if t4 = TILE_EMPTY then [Coords.mk (p.X - 1) p.Y] else []
  return a1 ++ a2 ++ a3 ++ a4

/-- The relaxation loop `for _, point := range adj` of `CreateSpt`
(game.go:452-458).  Note the source re-reads
`distances[current.pos.Y][current.pos.X]` on every iteration. -/
def relaxAll (cur : Coords) :
    List Coords → List (List Int) → List QItem →
    Option (List (List Int) × List QItem)
  | [], dist, q => some (dist, q)
  | pt :: rest, dist, q => do
      let dcur ← gget dist cur.Y cur.X
      let newDist := goAdd1 dcur
      let dpt ← gget dist pt.Y pt.X
      if newDist < dpt then do
        let dist2 ← gset dist pt.Y pt.X newDist
        relaxAll cur rest dist2 (heapPush q (QItem.mk pt newDist))
      else
        relaxAll cur rest dist q

/-- The main loop `for pq.Len() != 0` of `CreateSpt` (game.go:431-459).
The pop takes the *last* slice element (`pointQueue.Pop`, game.go:380-388),
not the heap minimum. -/
def sptLoop (b : Board) : Nat → List (List Int) → List QItem →
    RunRes (List (List Int))
  | 0, _, _ => .fuelOut
  | f + 1, dist, q =>
      match q.getLast? with
      | none => .ok dist
      | some it =>
          match adjOf b it.pos with
          | none => .crash
          | some adj =>
              match relaxAll it.pos adj dist q.dropLast with
              | none => .crash
              | some (dist2, q2) => sptLoop b f dist2 q2

/-- Instrumented copy of `sptLoop` that records, for every iteration of the
main loop, the queue as it stood before the pop together with the entry the
pop removed.  The transition logic is character-for-character that of
`sptLoop`. -/
def sptLoopTrace (b : Board) : Nat → List (List Int) → List QItem →
    List (List QItem × QItem) → Option (List (List QItem × QItem))
  | 0, _, _, _ => none
  | f + 1, dist, q, acc =>
      match q.getLast? with
      | none => some acc
      | some it =>
          match adjOf b it.pos with
          | none => none
          | some adj =>
              match relaxAll it.pos adj dist q.dropLast with
              | none => none
              | some (dist2, q2) =>
                  sptLoopTrace b f dist2 q2 (acc ++ [(q, it)])

/-- `func (m *Maze) CreateSpt(src Coords) ([][]int, error)` (game.go:395-461).
Only `m.Board` is consulted, so the model takes the board directly.
Go `%` on `int` is truncated (`Int.tmod`), and `(src.X-1)/2` is truncated
division (`Int.tdiv`). -/
def CreateSpt (b : Board) (src : Coords) (fuel : Nat) :
    RunRes (List (List Int)) :=
  if b.length % 2 ≠ 1 ∨ (b.headD []).length % 2 ≠ 1 then
    .err "Invalid board dimensions. Are you sure this is a generated maze?"
  else if src.X.tmod 2 ≠ 1 ∨ src.Y.tmod 2 ≠ 1 then
    .err "Source point is not a cell (2m+1, 2n+1 form)"
  else
    let realHeight : Nat := (b.length - 1) / 2
    let realWidth : Nat := ((b.headD []).length - 1) / 2
    let realSrc : Coords :=
      Coords.mk ((src.X - 1).tdiv 2) ((src.Y - 1).tdiv 2)
    let dist0 : List (List Int) :=
      List.replicate realHeight (List.replicate realWidth maxInt)
    match gset dist0 realSrc.Y realSrc.X 0 with
    | none => .crash
    | some dist1 => sptLoop b fuel dist1 (heapPush [] (QItem.mk realSrc 0))

/-- `CreateSpt` with its main loop replaced by the instrumented
`sptLoopTrace`: same preconditions and setup, but the result is the list of
(queue before pop, popped entry) pairs of the run. -/
def CreateSptTrace (b : Board) (src : Coords) (fuel : Nat) :
    Option (List (List QItem × QItem)) :=
  if b.length % 2 ≠ 1 ∨ (b.headD []).length % 2 ≠ 1 then none
  else if src.X.tmod 2 ≠ 1 ∨ src.Y.tmod 2 ≠ 1 then none
  else
    let realHeight : Nat := (b.length - 1) / 2
    let realWidth : Nat := ((b.headD []).length - 1) / 2
    let realSrc : Coords :=
      Coords.mk ((src.X - 1).tdiv 2) ((src.Y - 1).tdiv 2)
    let dist0 : List (List Int) :=
      List.replicate realHeight (List.replicate realWidth maxInt)
    match gset dist0 realSrc.Y realSrc.X 0 with
    | none => none
    | some dist1 =>
        sptLoopTrace b fuel dist1 (heapPush [] (QItem.mk realSrc 0)) []

/-- Does every recorded pop of a trace remove an entry of minimal weight
among the entries then in the queue? -/
def popsMinimal (tr : List (List QItem × QItem)) : Bool :=
  tr.all (fun s => s.1.all (fun it => s.2.weight ≤ it.weight))

/-! ## The maze generator of `generate.go` -/

/-- `type Direction uint8` with its four constants. -/
inductive Direction where
  | posY
  | posX
  | negY
  | negX
deriving DecidableEq, Repr

/-- The candidate-direction computation repeated at generate.go:48-60 and
71-82: checks in fixed order `+Y, -Y, +X, -X`; Go `&&` short-circuits, so
the board is only read when the bounds test passes. -/
def directionsAt (b : Board) (width height x y : Int) :
    Option (List Direction) := do
  let d1 ←
    if y ≠ height - 1 then do
      let t ← gget b (1 + 2 * (y + 1)) (1 + 2 * x)
      pure (if t ≠ TILE_EMPTY then [Direction.posY] else [])
    else pure []
  let d2 ←
    if y ≠ 0 then do
      let t ← gget b (1 + 2 * (y - 1)) (1 + 2 * x)
      pure (if t ≠ TILE_EMPTY then [Direction.negY] else [])
    else pure []
  let d3 ←
    if x ≠ width - 1 then do
      let t ← gget b (1 + 2 * y) (1 + 2 * (x + 1))
      pure (if t ≠ TILE_EMPTY then [Direction.posX] else [])
    else pure []
  let d4 ←
    if x ≠ 0 then do
      let t ← gget b (1 + 2 * y) (1 + 2 * (x - 1))
      pure (if t ≠ TILE_EMPTY then [Direction.negX] else [])
    else pure []
  return d1 ++ d2 ++ d3 ++ d4

/-- The backtracking inner loop `for len(directions) == 0` of
generate.go:66-83, with a structural fuel counter (first argument).
`backtrack[len(backtrack)-1]` on an empty slice is an index-out-of-range
panic (`none`).  Each pass pops the last stack element, so fuel equal to
the stack length always suffices; `backtrackLoop` instantiates it that
way.  Returns the new `(x, y)` and the remaining stack; the candidate
list found is recomputed by the outer loop. -/
def backtrackLoopF (b : Board) (width height : Int) :
    Nat → List Coords → Option (Int × Int × List Coords)
  | _, [] => none
  | 0, _ :: _ => none
  | f + 1, c :: cs =>
      let last := (c :: cs).getLast (by simp)
      let rest := (c :: cs).dropLast
      match directionsAt b width height last.X last.Y with
      | none => none
      | some dirs =>
          if dirs = [] then backtrackLoopF b width height f rest
          else some (last.X, last.Y, rest)

/-- The backtracking inner loop, fuelled by the stack length. -/
def backtrackLoop (b : Board) (width height : Int) (st : List Coords) :
    Option (Int × Int × List Coords) :=
  backtrackLoopF b width height st.length st

/-- Loop state of `GenerateMaze`: the board, current cell, the unvisited
counter, the backtrack stack, the recorded endpoints, and the position `k`
in the global random stream. -/
structure GenState where
  board : Board
  x : Int
  y : Int
  toVisit : Int
  backtrack : List Coords
  endpoints : List Coords
  k : Nat
deriving Repr

/-- Board row of the wall opened by the `switch move` cases. -/
def wallY (st : GenState) : Direction → Int
  | Direction.posX => 2 * st.y + 1
  | Direction.posY => 2 * st.y + 2
  | Direction.negX => 2 * st.y + 1
  | Direction.negY => 2 * st.y

/-- Board column of the wall opened by the `switch move` cases. -/
def wallX (st : GenState) : Direction → Int
  | Direction.posX => 2 * st.x + 2
  | Direction.posY => 2 * st.x + 1
  | Direction.negX => 2 * st.x
  | Direction.negY => 2 * st.x + 1

/-- New cell x after `x++` / `x--` in the `switch move` cases. -/
def stepX (st : GenState) : Direction → Int
  | Direction.posX => st.x + 1
  | Direction.negX => st.x - 1
  | _ => st.x

/-- New cell y after `y++` / `y--` in the `switch move` cases. -/
def stepY (st : GenState) : Direction → Int
  | Direction.posY => st.y + 1
  | Direction.negY => st.y - 1
  | _ => st.y

/-- One carving move (the `switch move` at generate.go:86-99 followed by
lines 100-102): open the wall in direction `mv`, step there, mark the new
cell, decrement the counter, push the new cell on the stack. -/
def carve (st : GenState) (mv : Direction) : Option GenState :=
  match gset st.board (wallY st mv) (wallX st mv) TILE_EMPTY with
  | none => none
  | some b1 =>
      match gset b1 (1 + 2 * stepY st mv) (1 + 2 * stepX st mv)
          TILE_EMPTY with
      | none => none
      | some b2 =>
          some { st with
                 board := b2
                 x := stepX st mv
                 y := stepY st mv
                 toVisit := st.toVisit - 1
                 backtrack :=
                   st.backtrack ++ [Coords.mk (stepX st mv) (stepY st mv)] }

/-- The main carving loop `for toVisit > 0` of generate.go:43-105.
The direction index is drawn from the package-global generator `gR`
(`rand.Intn`, generate.go:85), not from the seeded local one. -/
def genLoop (width height : Int) (gR : Nat → Nat) :
    Nat → GenState → RunRes GenState
  | 0, _ => .fuelOut
  | f + 1, st =>
      if st.toVisit ≤ 0 then .ok st
      else
        match directionsAt st.board width height st.x st.y with
        | none => .crash
        | some dirs =>
            if dirs = [] then
              match backtrackLoop st.board width height st.backtrack with
              | none => .crash
              | some (nx, ny, rest) =>
                  genLoop width height gR f
                    { st with
                      x := nx
                      y := ny
                      backtrack := rest
                      endpoints := st.endpoints ++ [Coords.mk st.x st.y] }
            else
              match carve { st with k := st.k + 1 }
                  (dirs.getD (gR st.k % dirs.length) Direction.posY) with
              | none => .crash
              | some st2 => genLoop width height gR f st2

/-- The inner scan `for k, val := range line` of generate.go:133-140:
strict `>` keeps the first maximum. -/
def scanRow (j : Nat) : List Int → Nat → Int × Coords → Int × Coords
  | [], _, acc => acc
  | v :: rest, k, (longest, p2) =>
      if v > longest then scanRow j rest (k + 1) (v, Coords.mk (k : Int) (j : Int))
      else scanRow j rest (k + 1) (longest, p2)

/-- The outer scan `for j, line := range spt` of generate.go:133-140. -/
def scanRows : List (List Int) → Nat → Int × Coords → Int × Coords
  | [], _, acc => acc
  | row :: rest, j, acc => scanRows rest (j + 1) (scanRow j row 0 acc)

/-- Find the largest value (and its cell) in a distance table, starting
from `longest := -1` and the zero-valued `Coords`. -/
def scanMax (spt : List (List Int)) : Int × Coords :=
  scanRows spt 0 (-1, Coords.mk 0 0)

/-- The endpoint-selection loop `for _, p1 := range endpoints` of
generate.go:125-148, carrying `src`, `dest` and `dist`. -/
def selectLoop (board : Board) (fuel : Nat) :
    List Coords → Coords → Coords → Int → RunRes (Coords × Coords × Int)
  | [], src, dest, dist => .ok (src, dest, dist)
  | p1 :: rest, src, dest, dist =>
      match CreateSpt board (Coords.mk (p1.X * 2 + 1) (p1.Y * 2 + 1)) fuel with
      | .crash => .crash
      | .err e => .err e
      | .fuelOut => .fuelOut
      | .ok spt =>
          let (longest, p2) := scanMax spt
          if longest > dist then selectLoop board fuel rest p1 p2 longest
          else selectLoop board fuel rest src dest dist

/-- `func GenerateMaze(width int, height int, seed int64) (*Maze, error)`
(generate.go:18-161).  `sR` is the stream of draws of the local generator
`rng := rand.New(rand.NewSource(seed))` — a fixed function of `seed` —
while `gR` is the stream of draws the call observes from the package-global
generator used at generate.go:85, which is shared process state.
`make` with a negative length or capacity panics, as does `Intn` with a
non-positive bound. -/
def GenerateMaze (width height : Int) (sR gR : Nat → Nat) (fuel : Nat) :
    RunRes Maze :=
  if height < 0 then .crash
  else if width < 0 then .crash
  else
    match goIntn sR 0 width with
    | none => .crash
    | some x =>
    match goIntn sR 1 height with
    | none => .crash
    | some y =>
    match genLoop width height gR fuel
        { board := List.replicate (2 * height + 1).toNat
            (List.replicate (2 * width + 1).toNat TILE_WALL),
          x := x, y := y, toVisit := width * height,
          backtrack := [], endpoints := [Coords.mk 0 0, Coords.mk x y],
          k := 0 } with
    | .crash => .crash
    | .err e => .err e
    | .fuelOut => .fuelOut
    | .ok st =>
    match selectLoop st.board fuel st.endpoints
        (Coords.mk 0 0) (Coords.mk 0 0) (-1) with
    | .crash => .crash
    | .err e => .err e
    | .fuelOut => .fuelOut
    | .ok (src, dest, dist) =>
    match gset st.board (src.Y * 2 + 1) (src.X * 2 + 1) TILE_START with
    | none => .crash
    | some b1 =>
    match gset b1 (dest.Y * 2 + 1) (dest.X * 2 + 1) TILE_END with
    | none => .crash
    | some b2 =>
      .ok { Board := b2,
            Start := Coords.mk (src.X * 2 + 1) (src.Y * 2 + 1),
            End := Coords.mk (dest.X * 2 + 1) (dest.Y * 2 + 1),
            PathLen := dist, Width := width * 2 + 1,
            Height := height * 2 + 1 }

/-! ## Small observers used to state concrete facts about run results -/

/-- Board of a successful generation. -/
def resBoard : RunRes Maze → Option Board
  | .ok m => some m.Board
  | _ => none

/-- `PathLen` of a successful generation. -/
def resPathLen : RunRes Maze → Option Int
  | .ok m => some m.PathLen
  | _ => none

/-- Distance table of a successful `CreateSpt` run. -/
def resTable : RunRes (List (List Int)) → Option (List (List Int))
  | .ok t => some t
  | _ => none

/-- Did the run return a Go `error` value (as opposed to returning
normally, panicking, or running out of model fuel)? -/
def resIsErr {α : Type} : RunRes α → Bool
  | .err _ => true
  | _ => false

/-- Number of interior connector positions (exactly one odd coordinate)
holding an Empty tile. -/
def countConnectors (b : Board) : Nat :=
  ((b.enum).map (fun rw =>
      ((rw.2.enum).filter (fun ct =>
        (decide ((ct.1 % 2 + rw.1 % 2) = 1)) && (ct.2 == TILE_EMPTY))).length)).sum

/-! ## The text loader of `LoadMazeFromString` and the renderer
`DisplayText` (the tile/loader source file) -/

/-- `strings.Split(s, "\n")`: split at every newline, separators removed;
a trailing newline yields a final empty piece, and the empty string yields
one empty piece. -/
def goSplitLines : List Char → List (List Char)
  | [] => [[]]
  | c :: rest =>
      if c = '\n' then [] :: goSplitLines rest
      else
        match goSplitLines rest with
        | [] => [[c]]
        | r :: rs => (c :: r) :: rs

/-- Accumulated state of `LoadMazeFromString` (its local variables). -/
structure LoadSt where
  board : Board
  startX : Int
  startY : Int
  endX : Int
  endY : Int
  starts : Int
  ends : Int
  width : Int
deriving DecidableEq, Repr

/-- The per-row character loop `for j, tile := range row` of
`LoadMazeFromString`: records start/end positions (row index `i` is the
index in the split line list), errors on duplicates and unknown tiles,
normalises a space to Empty. -/
def parseRow (i : Nat) : List Char → Nat → LoadSt →
    Except String (List Char × LoadSt)
  | [], _, ls => .ok ([], ls)
  | c :: rest, j, ls =>
      if c = TILE_START then
        if ls.starts > 0 then .error "Maze cannot have multiple start points"
        else
          match parseRow i rest (j + 1)
              { ls with startX := (j : Int), startY := (i : Int),
                        starts := ls.starts + 1 } with
          | .error e => .error e
          | .ok (r, ls2) => .ok (c :: r, ls2)
      else if c = TILE_END then
        if ls.ends > 0 then .error "Maze cannot have multiple end points"
        else
          match parseRow i rest (j + 1)
              { ls with endX := (j : Int), endY := (i : Int),
                        ends := ls.ends + 1 } with
          | .error e => .error e
          | .ok (r, ls2) => .ok (c :: r, ls2)
      else if c = ' ' then
        match parseRow i rest (j + 1) ls with
        | .error e => .error e
        | .ok (r, ls2) => .ok (TILE_EMPTY :: r, ls2)
      else if c ≠ TILE_EMPTY ∧ c ≠ TILE_WALL then
        .error "Invalid maze tile"
      else
        match parseRow i rest (j + 1) ls with
        | .error e => .error e
        | .ok (r, ls2) => .ok (c :: r, ls2)

/-- The line loop `for i, l := range lines` of `LoadMazeFromString`:
skip empty lines, fix or check the width, parse the row, append it. -/
def loadLoop : List (List Char) → Nat → LoadSt → Except String LoadSt
  | [], _, ls => .ok ls
  | l :: rest, i, ls =>
      if l.length = 0 then loadLoop rest (i + 1) ls
      else
        let check : Except String LoadSt :=
          if ls.width = -1 then .ok { ls with width := (l.length : Int) }
          else if ls.width ≠ (l.length : Int) then
            .error "All rows in a maze must have the same length"
          else .ok ls
        match check with
        | .error e => .error e
        | .ok ls1 =>
            match parseRow i l 0 ls1 with
            | .error e => .error e
            | .ok (row, ls2) =>
                loadLoop rest (i + 1) { ls2 with board := ls2.board ++ [row] }

/-- `func LoadMazeFromString(s string) (*Maze, error)`. -/
def LoadMazeFromString (s : List Char) : Except String Maze :=
  match loadLoop (goSplitLines s) 0
      { board := [], startX := 0, startY := 0, endX := 0, endY := 0,
        starts := 0, ends := 0, width := -1 } with
  | .error e => .error e
  | .ok ls =>
      .ok { Board := ls.board,
            Start := Coords.mk ls.startX ls.startY,
            End := Coords.mk ls.endX ls.endY,
            PathLen := -1,
            Height := (ls.board.length : Int),
            Width := ls.width }

/-- Inner loop of `DisplayText`: one row, with the player overlay. -/
def displayRow (i : Nat) (playerX playerY : Int) :
    List Char → Nat → List Char
  | [], _ => []
  | t :: rest, j =>
      (if (j : Int) = playerX ∧ (i : Int) = playerY then '@' else t) ::
        displayRow i playerX playerY rest (j + 1)

/-- Outer loop of `DisplayText`: rows each followed by a newline. -/
def displayRows (playerX playerY : Int) :
    List (List Char) → Nat → List Char
  | [], _ => []
  | row :: rest, i =>
      displayRow i playerX playerY row 0 ++
        '\n' :: displayRows playerX playerY rest (i + 1)

/-- `func (m *Maze) DisplayText(playerX int, playerY int) (string, error)`;
the error result is always `nil` in the source, so the model returns the
string. -/
def DisplayText (m : Maze) (playerX playerY : Int) : List Char :=
  displayRows playerX playerY m.Board 0

/-! ## Concrete inputs used in the evaluations below -/

/-- The all-zero random stream. -/
def streamZero : Nat → Nat := fun _ => 0

/-- A stream whose first draw is 1 and all later draws are 0. -/
def streamCycle : Nat → Nat := fun n => if n = 0 then 1 else 0

/-- A stream whose first two draws are 1 and all later draws are 0. -/
def streamMiss : Nat → Nat := fun n => if n < 2 then 1 else 0

/-- A 5×5 board (2×2 cells): the two left cells and the two bottom cells
are connected, the top two are not directly connected.  The cell graph is
the path (1,0) − (1,1) − (0,1) − (0,0). -/
def boardPopDemo : Board :=
  [['#', '#', '#', '#', '#'],
   ['#', '.', '#', '.', '#'],
   ['#', '.', '#', '.', '#'],
   ['#', '.', '.', '.', '#'],
   ['#', '#', '#', '#', '#']]

/-- The hand-built 5×5 straight-corridor board of the specification's
scenario: a single horizontal corridor of two cells with its marks at the
opposite ends; the two bottom cells are sealed off. -/
def boardCorridor : Board :=
  [['#', '#', '#', '#', '#'],
   ['#', '>', '.', '<', '#'],
   ['#', '#', '#', '#', '#'],
   ['#', '#', '#', '#', '#'],
   ['#', '#', '#', '#', '#']]

/-- A 3×3 all-wall board (one cell, no passages). -/
def boardAllWall3 : Board :=
  List.replicate 3 (List.replicate 3 TILE_WALL)

/-- The maze returned by `GenerateMaze 2 2 streamZero streamCycle 500`
(used as a concrete generated maze). -/
def mazeDemo : Maze :=
  { Board := [['#', '#', '#', '#', '#'],
              ['#', '>', '.', '.', '#'],
              ['#', '.', '#', '.', '#'],
              ['#', '.', '.', '<', '#'],
              ['#', '#', '#', '#', '#']],
    Start := Coords.mk 1 1,
    End := Coords.mk 3 3,
    PathLen := 2,
    Width := 5,
    Height := 5 }

/-! ## Specification-side definitions -/

/-- A rectangular grid with `rows` rows of `cols` entries each, all of
whose entries satisfy `P`. -/
def GridOk {α : Type} (rows cols : Nat) (P : α → Prop)
    (g : List (List α)) : Prop :=
  g.length = rows ∧ ∀ row ∈ g, row.length = cols ∧ ∀ c ∈ row, P c

/-- Total number of occurrences of tile `c` on the board. -/
def countGrid (c : Char) (b : Board) : Nat :=
  (b.map (fun r => r.count c)).sum

/-- The rows of a board joined, each row followed by a newline: the text
`DisplayText` produces when the overlay is suppressed. -/
def joinNL : Board → List Char
  | [] => []
  | r :: rest => r ++ '\n' :: joinNL rest

/-- Total number of occurrences of `c` across a list of lines. -/
def countLines (c : Char) (rows : List (List Char)) : Nat :=
  (rows.map (fun r => r.count c)).sum

/-- `p` is a cell of the `rw × rh` cell grid. -/
def cellInB (rw rh : Nat) (p : Coords) : Prop :=
  0 ≤ p.X ∧ p.X < (rw : Int) ∧ 0 ≤ p.Y ∧ p.Y < (rh : Int)

instance (rw rh : Nat) (p : Coords) : Decidable (cellInB rw rh p) :=
  inferInstanceAs (Decidable (_ ∧ _ ∧ _ ∧ _))

/-- Cells `u` and `v` are adjacent in the passage graph of board `b`: both
in the cell grid, axis-aligned neighbours, and the connector tile on the
board between their centres is Empty. -/
def adjB (b : Board) (rw rh : Nat) (u v : Coords) : Prop :=
  cellInB rw rh u ∧ cellInB rw rh v ∧
  ((u.X = v.X ∧ (v.Y = u.Y + 1 ∨ u.Y = v.Y + 1)) ∨
   (u.Y = v.Y ∧ (v.X = u.X + 1 ∨ u.X = v.X + 1))) ∧
  gget b (u.Y + v.Y + 1) (u.X + v.X + 1) = some TILE_EMPTY

instance (b : Board) (rw rh : Nat) (u v : Coords) :
    Decidable (adjB b rw rh u v) :=
  inferInstanceAs (Decidable (_ ∧ _ ∧ _ ∧ _))

/-- The cells of row `cy` with column below `n`. -/
def rowCells (cy : Nat) : Nat → List Coords
  | 0 => []
  | cx + 1 => rowCells cy cx ++ [Coords.mk (cx : Int) (cy : Int)]

/-- All cells of the `rw × rh` cell grid. -/
def cellList (rw : Nat) : Nat → List Coords
  | 0 => []
  | cy + 1 => cellList rw cy ++ rowCells cy rw

/-- `reachB b rw rh s n v` holds when `v` is within `n` passage steps of
`s` in the cell graph of `b` — so the shortest-path distance from `s` to
`v` is the least `n` for which it holds. -/
def reachB (b : Board) (rw rh : Nat) (s : Coords) : Nat → Coords → Bool
  | 0, v => v = s
  | n + 1, v =>
      reachB b rw rh s n v ||
        (cellList rw rh).any
          (fun u => decide (adjB b rw rh u v) && reachB b rw rh s n u)

/-- Every tile on the outer border of the board is a Wall. -/
def BorderWalls (b : Board) : Prop :=
  (∀ x : Nat, x < (b.headD []).length →
    gget b 0 (x : Int) = some TILE_WALL ∧
    gget b ((b.length : Int) - 1) (x : Int) = some TILE_WALL) ∧
  (∀ y : Nat, y < b.length →
    gget b (y : Int) 0 = some TILE_WALL ∧
    gget b (y : Int) (((b.headD []).length : Int) - 1) = some TILE_WALL)

/-- The recorded distance of cell `v` in a distance table. -/
def dcell (dist : List (List Int)) (v : Coords) : Int :=
  (gget dist v.Y v.X).getD maxInt

/-- Sum of the recorded distances over the cell grid (termination
measure of the shortest-path loop). -/
def sumD (rw rh : Nat) (dist : List (List Int)) : Nat :=
  ((cellList rw rh).map (fun v => (dcell dist v).toNat)).sum

/-- Number of cells whose recorded distance is no longer the sentinel. -/
def finCount (rw rh : Nat) (dist : List (List Int)) : Nat :=
  (cellList rw rh).countP (fun v => !(dcell dist v == maxInt))

/-- Loop invariant of `CreateSpt`'s main loop, for board `b` with cell
grid `rw × rh` and source cell `s`: the distance table has the right
shape, records only genuine bounded reach distances (0 at the source,
the sentinel elsewhere until written), every queue entry dominates the
recorded distance of its cell, and every passage-graph edge is either
relaxed or has its tail cell still queued. -/
structure SptInv (b : Board) (rw rh : Nat) (s : Coords)
    (dist : List (List Int)) (q : List QItem) : Prop where
  shape : GridOk rh rw (fun _ => True) dist
  src0 : dcell dist s = 0
  lower : ∀ v, cellInB rw rh v → 0 ≤ dcell dist v ∧ dcell dist v ≤ maxInt
  realize : ∀ v, cellInB rw rh v → dcell dist v ≠ maxInt →
    reachB b rw rh s (dcell dist v).toNat v = true
  bounded : ∀ v, cellInB rw rh v → dcell dist v ≠ maxInt →
    dcell dist v < (finCount rw rh dist : Int)
  queue : ∀ it ∈ q, cellInB rw rh it.pos ∧ dcell dist it.pos ≤ it.weight ∧
    it.weight < (finCount rw rh dist : Int)
  edges : ∀ u v, adjB b rw rh u v →
    dcell dist v ≤ dcell dist u + 1 ∨ ∃ it ∈ q, it.pos = u

/-! ## Claims about the generator, settled by evaluating the model -/

/-- Claim C1, refuted at a concrete input: `GenerateMaze 2 2` with the
same seeded stream but two different states of the package-global
direction generator (`rand.Intn` at generate.go:85) yields two different
mazes, so (width, height, seed) does not determine the board. -/
theorem generateMaze_not_determined_by_seed :
    GenerateMaze 2 2 streamZero streamZero 500 ≠
      GenerateMaze 2 2 streamZero streamCycle 500 := by decide

/-- Claim C2, refuted at a concrete input: a 2×2 generation run whose walk
re-enters its starting cell through a fresh wall carves `4` Empty
connectors — not `width*height - 1 = 3` — so the passage graph of this
returned board contains a cycle and is not a spanning tree. -/
theorem generateMaze_board_not_spanning_tree :
    (resBoard (GenerateMaze 2 2 streamZero streamCycle 500)).map
        countConnectors = some 4 := by decide

/-- Claim C3, refuted at the 1×1 input: `GenerateMaze 1 1` panics — the
single cell has no candidate directions, so the very first iteration
reads `backtrack[len(backtrack)-1]` on the empty backtrack stack
(generate.go:67). -/
theorem generateMaze_1x1_crashes :
    GenerateMaze 1 1 streamZero streamZero 10 = RunRes.crash := by decide

/-- Claim C4, refuted at a concrete input: a 2×2 run returns a maze with
`PathLen = 2`, yet the cells (1,0) and (1,1) of that same board lie at
shortest-path distance 3 (read off from `CreateSpt` run from board
position (3,1)); the (Start, End) pair is not a farthest pair. -/
theorem generateMaze_pathLen_not_maximal :
    resPathLen (GenerateMaze 2 2 streamZero streamMiss 500) = some 2 ∧
      ((resBoard (GenerateMaze 2 2 streamZero streamMiss 500)).bind fun b =>
          (resTable (CreateSpt b (Coords.mk 3 1) 500)).bind fun t =>
            gget t 1 1) = some 3 := by decide

/-- Claim C6, refuted at a concrete input: on `boardPopDemo`, the third
iteration of `CreateSpt`'s main loop pops the weight-2 entry for cell
(0,0) while the weight-1 entry for cell (1,0) is still in the queue — the
raw slice `Pop` (game.go:380-388) removes the last element, not the heap
minimum. -/
theorem createSpt_pop_not_minimum :
    (CreateSptTrace boardPopDemo (Coords.mk 3 3) 100).map popsMinimal =
      some false := by decide

/-- Claim C7, counterexample: `GenerateMaze 0 1` panics (inside
`rand.Intn(0)`) instead of returning a typed InvalidDimensions error —
there is no dimension validation in the source at all. -/
theorem generateMaze_zero_width_no_typed_error :
    GenerateMaze 0 1 streamZero streamZero 10 = RunRes.crash ∧
      resIsErr (GenerateMaze 0 1 streamZero streamZero 10) = false := by
  decide

/-- Claim C7 as amended: for every non-positive width or height,
`GenerateMaze` panics — it crashes in `make` (negative size) or in
`rand.Intn` (non-positive bound) before any maze is produced, and never
returns a typed error for bad dimensions. -/
theorem generateMaze_nonpositive_dims_crash (width height : Int)
    (sR gR : Nat → Nat) (fuel : Nat) (h : width ≤ 0 ∨ height ≤ 0) :
    GenerateMaze width height sR gR fuel = RunRes.crash := by
  unfold GenerateMaze
  by_cases h1 : height < 0
  · simp [h1]
  · by_cases h2 : width < 0
    · simp [h1, h2]
    · have hcase : width = 0 ∨ (0 < width ∧ height = 0) := by omega
      rcases hcase with hw | ⟨hwpos, hh0⟩
      · subst hw
        simp [h1, h2, goIntn]
      · subst hh0
        simp [h1, h2, goIntn, not_le.mpr hwpos]

/-- Witness for the amended Claim C7 at width 0, height 1. -/
theorem generateMaze_nonpositive_dims_crash_witness :
    ((0 : Int) ≤ 0 ∨ (1 : Int) ≤ 0) ∧
      GenerateMaze 0 1 streamZero streamCycle 10 = RunRes.crash :=
  ⟨Or.inl le_rfl,
   generateMaze_nonpositive_dims_crash 0 1 streamZero streamCycle 10
     (Or.inl le_rfl)⟩

/-! ## Claims about the error behaviour of `CreateSpt` -/

/-- The main loop of `CreateSpt` contains no `return error` statement:
whatever the fuel, state and queue, it cannot produce a Go error value. -/
theorem sptLoop_not_err (b : Board) (fuel : Nat) (dist : List (List Int))
    (q : List QItem) : resIsErr (sptLoop b fuel dist q) = false := by
  induction fuel generalizing dist q with
  | zero => rfl
  | succ f ih =>
      show resIsErr
        (match q.getLast? with
         | none => RunRes.ok dist
         | some it =>
             match adjOf b it.pos with
             | none => RunRes.crash
             | some adj =>
                 match relaxAll it.pos adj dist q.dropLast with
                 | none => RunRes.crash
                 | some (dist2, q2) => sptLoop b f dist2 q2) = false
      cases q.getLast? with
      | none => rfl
      | some it =>
          show resIsErr
            (match adjOf b it.pos with
             | none => RunRes.crash
             | some adj =>
                 match relaxAll it.pos adj dist q.dropLast with
                 | none => RunRes.crash
                 | some (dist2, q2) => sptLoop b f dist2 q2) = false
          cases adjOf b it.pos with
          | none => rfl
          | some adj =>
              show resIsErr
                (match relaxAll it.pos adj dist q.dropLast with
                 | none => RunRes.crash
                 | some (dist2, q2) => sptLoop b f dist2 q2) = false
              cases relaxAll it.pos adj dist q.dropLast with
              | none => rfl
              | some p =>
                  obtain ⟨d2, q2⟩ := p
                  exact ih d2 q2

/-- Claim C8, counterexample: on a 3×3 board the odd/odd but out-of-bounds
source (3,3) passes both precondition checks of `CreateSpt` and the call
then panics writing `distances[1][1]` into a 1×1 table — no typed error is
returned for an out-of-bounds source. -/
theorem createSpt_oob_source_crash :
    CreateSpt boardAllWall3 (Coords.mk 3 3) 10 = RunRes.crash ∧
      resIsErr (CreateSpt boardAllWall3 (Coords.mk 3 3) 10) = false := by
  decide

/-- Claim C8 as amended: `CreateSpt` returns its InvalidBoard error exactly
when the board dimensions are not both odd, returns its InvalidSource
error exactly when (dimensions being odd) the source coordinates are not
both odd — bounds are never checked — and in all other cases never
returns a typed error (it returns a table or panics). -/
theorem createSpt_error_characterisation (b : Board) (src : Coords)
    (fuel : Nat) :
    (¬(b.length % 2 = 1 ∧ (b.headD []).length % 2 = 1) →
        CreateSpt b src fuel =
          RunRes.err
            "Invalid board dimensions. Are you sure this is a generated maze?") ∧
    (b.length % 2 = 1 ∧ (b.headD []).length % 2 = 1 →
      ¬(src.X.tmod 2 = 1 ∧ src.Y.tmod 2 = 1) →
        CreateSpt b src fuel =
          RunRes.err "Source point is not a cell (2m+1, 2n+1 form)") ∧
    (b.length % 2 = 1 ∧ (b.headD []).length % 2 = 1 →
      src.X.tmod 2 = 1 ∧ src.Y.tmod 2 = 1 →
        resIsErr (CreateSpt b src fuel) = false) := by
  refine ⟨?_, ?_, ?_⟩
  · intro h
    have hcond : b.length % 2 ≠ 1 ∨ (b.headD []).length % 2 ≠ 1 := by
      tauto
    unfold CreateSpt
    rw [if_pos hcond]
  · intro h hsrc
    have hcond : ¬(b.length % 2 ≠ 1 ∨ (b.headD []).length % 2 ≠ 1) := by
      tauto
    have hcond2 : src.X.tmod 2 ≠ 1 ∨ src.Y.tmod 2 ≠ 1 := by tauto
    unfold CreateSpt
    rw [if_neg hcond, if_pos hcond2]
  · intro h hsrc
    have hcond : ¬(b.length % 2 ≠ 1 ∨ (b.headD []).length % 2 ≠ 1) := by
      tauto
    have hcond2 : ¬(src.X.tmod 2 ≠ 1 ∨ src.Y.tmod 2 ≠ 1) := by tauto
    unfold CreateSpt
    rw [if_neg hcond, if_neg hcond2]
    show resIsErr
      (match gset
          (List.replicate ((b.length - 1) / 2)
            (List.replicate (((b.headD []).length - 1) / 2) maxInt))
          ((src.Y - 1).tdiv 2) ((src.X - 1).tdiv 2) 0 with
       | none => RunRes.crash
       | some dist1 =>
           sptLoop b fuel dist1
             (heapPush []
               (QItem.mk
                 (Coords.mk ((src.X - 1).tdiv 2) ((src.Y - 1).tdiv 2)) 0))) =
        false
    cases gset
        (List.replicate ((b.length - 1) / 2)
          (List.replicate (((b.headD []).length - 1) / 2) maxInt))
        ((src.Y - 1).tdiv 2) ((src.X - 1).tdiv 2) 0 with
    | none => rfl
    | some dist1 => exact sptLoop_not_err b fuel dist1 _

/-- Witness for the amended Claim C8: each of the three cases observed at
a concrete input. -/
theorem createSpt_error_characterisation_witness :
    (CreateSpt ([] : Board) (Coords.mk 1 1) 5 =
        RunRes.err
          "Invalid board dimensions. Are you sure this is a generated maze?") ∧
    (CreateSpt boardAllWall3 (Coords.mk 2 1) 5 =
        RunRes.err "Source point is not a cell (2m+1, 2n+1 form)") ∧
    resIsErr (CreateSpt boardAllWall3 (Coords.mk 1 1) 5) = false :=
  ⟨(createSpt_error_characterisation [] (Coords.mk 1 1) 5).1 (by decide),
   (createSpt_error_characterisation boardAllWall3 (Coords.mk 2 1) 5).2.1
     (by decide) (by decide),
   (createSpt_error_characterisation boardAllWall3 (Coords.mk 1 1) 5).2.2
     (by decide) (by decide)⟩

/-! ## Claim C10: loading a grid with no Start and no End -/

/-- On a row containing only Empty, Wall and space characters, the row
loop of `LoadMazeFromString` succeeds and leaves the loader state
untouched. -/
theorem parseRow_no_marks (l : List Char) (i j : Nat) (ls : LoadSt)
    (hc : ∀ c ∈ l, c = TILE_EMPTY ∨ c = TILE_WALL ∨ c = ' ') :
    ∃ r, parseRow i l j ls = .ok (r, ls) := by
  induction l generalizing j with
  | nil => exact ⟨[], rfl⟩
  | cons c rest ih =>
      have hcrest : ∀ x ∈ rest, x = TILE_EMPTY ∨ x = TILE_WALL ∨ x = ' ' :=
        fun x hx => hc x (List.mem_cons_of_mem c hx)
      obtain ⟨r, hr⟩ := ih (j + 1) hcrest
      rcases hc c (List.mem_cons_self c rest) with h | h | h <;> subst h
      · exact ⟨TILE_EMPTY :: r, by simp [parseRow, TILE_EMPTY, TILE_WALL,
          TILE_START, TILE_END, hr]⟩
      · exact ⟨TILE_WALL :: r, by simp [parseRow, TILE_EMPTY, TILE_WALL,
          TILE_START, TILE_END, hr]⟩
      · exact ⟨TILE_EMPTY :: r, by simp [parseRow, TILE_EMPTY, TILE_WALL,
          TILE_START, TILE_END, hr]⟩

/-- On lines containing only Empty, Wall and space characters, all of one
width, the line loop of `LoadMazeFromString` succeeds and never moves the
recorded start and end positions. -/
theorem loadLoop_no_marks (rows : List (List Char)) (w : Nat) (i : Nat)
    (ls : LoadSt) (hwpos : w ≠ 0)
    (hc : ∀ l ∈ rows, ∀ c ∈ l, c = TILE_EMPTY ∨ c = TILE_WALL ∨ c = ' ')
    (hrect : ∀ l ∈ rows, l.length = 0 ∨ l.length = w)
    (hw : ls.width = -1 ∨ ls.width = (w : Int)) :
    ∃ ls2, loadLoop rows i ls = .ok ls2 ∧ ls2.startX = ls.startX ∧
      ls2.startY = ls.startY ∧ ls2.endX = ls.endX ∧ ls2.endY = ls.endY := by
  induction rows generalizing i ls with
  | nil => exact ⟨ls, rfl, rfl, rfl, rfl, rfl⟩
  | cons l rest ih =>
      have hcrest : ∀ x ∈ rest, ∀ c ∈ x, c = TILE_EMPTY ∨ c = TILE_WALL ∨
          c = ' ' := fun x hx => hc x (List.mem_cons_of_mem l hx)
      have hrrest : ∀ x ∈ rest, x.length = 0 ∨ x.length = w :=
        fun x hx => hrect x (List.mem_cons_of_mem l hx)
      rcases hrect l (List.mem_cons_self l rest) with hl | hl
      · -- empty line: skipped
        obtain ⟨ls2, h1, h2⟩ := ih (i + 1) ls hcrest hrrest hw
        exact ⟨ls2, by simp [loadLoop, hl, h1], h2⟩
      · -- non-empty line of width w
        have hlne : ¬ l.length = 0 := by omega
        have hcl : ∀ c ∈ l, c = TILE_EMPTY ∨ c = TILE_WALL ∨ c = ' ' :=
          hc l (List.mem_cons_self l rest)
        rcases hw with hw | hw
        · -- width still unset: it becomes w
          obtain ⟨r, hr⟩ := parseRow_no_marks l i 0
            { ls with width := (l.length : Int) } hcl
          obtain ⟨ls2, h1, h2⟩ := ih (i + 1)
            { ls with width := (l.length : Int), board := ls.board ++ [r] }
            hcrest hrrest (by right; simp [hl])
          refine ⟨ls2, ?_, h2⟩
          simp [loadLoop, hlne, hw, hr, h1]
        · -- width already w: the check passes
          have hne : ¬ ls.width = -1 := by rw [hw]; omega
          have heq : ¬ ls.width ≠ (l.length : Int) := by
            rw [hw, hl]; simp
          obtain ⟨r, hr⟩ := parseRow_no_marks l i 0 ls hcl
          obtain ⟨ls2, h1, h2⟩ := ih (i + 1)
            { ls with board := ls.board ++ [r] } hcrest hrrest (Or.inr hw)
          refine ⟨ls2, ?_, h2⟩
          simp [loadLoop, hlne, hne, heq, hr, h1]

/-- Claim C10: `LoadMazeFromString` accepts a rectangular grid of valid
tile characters containing no Start and no End tile at all; the resulting
Maze has `Start = (0,0)`, `End = (0,0)` and `PathLen = -1` regardless of
the tile at position (0,0) — there is no missing-start/end error kind. -/
theorem load_without_start_end_defaults (s : List Char) (w : Nat)
    (hwpos : w ≠ 0)
    (hc : ∀ l ∈ goSplitLines s, ∀ c ∈ l,
      c = TILE_EMPTY ∨ c = TILE_WALL ∨ c = ' ')
    (hrect : ∀ l ∈ goSplitLines s, l.length = 0 ∨ l.length = w) :
    ∃ m : Maze, LoadMazeFromString s = .ok m ∧ m.Start = Coords.mk 0 0 ∧
      m.End = Coords.mk 0 0 ∧ m.PathLen = -1 := by
  obtain ⟨ls2, h1, h2, h3, h4, h5⟩ :=
    loadLoop_no_marks (goSplitLines s) w 0
      { board := [], startX := 0, startY := 0, endX := 0, endY := 0,
        starts := 0, ends := 0, width := -1 } hwpos hc hrect (Or.inl rfl)
  refine ⟨{ Board := ls2.board, Start := Coords.mk ls2.startX ls2.startY,
            End := Coords.mk ls2.endX ls2.endY, PathLen := -1,
            Height := (ls2.board.length : Int), Width := ls2.width },
      ?_, ?_, ?_, rfl⟩
  · simp [LoadMazeFromString, h1]
  · simp [h2, h3]
  · simp [h4, h5]

/-- Witness for Claim C10 at the concrete grid `". #\n#..\n"`. -/
theorem load_without_start_end_defaults_witness :
    ((3 : Nat) ≠ 0 ∧
      (∀ l ∈ goSplitLines ". #\n#..\n".toList, ∀ c ∈ l,
        c = TILE_EMPTY ∨ c = TILE_WALL ∨ c = ' ') ∧
      (∀ l ∈ goSplitLines ". #\n#..\n".toList,
        l.length = 0 ∨ l.length = 3)) ∧
    (∃ m : Maze, LoadMazeFromString ". #\n#..\n".toList = .ok m ∧
      m.Start = Coords.mk 0 0 ∧ m.End = Coords.mk 0 0 ∧ m.PathLen = -1) :=
  ⟨⟨by decide, by decide, by decide⟩,
   load_without_start_end_defaults ". #\n#..\n".toList 3 (by decide)
     (by decide) (by decide)⟩

/-! ## Claim C9: structural invariants of generation, and the text
round-trip -/

/-- A successful `gget` pins both indices inside the grid. -/
theorem gget_some_bounds {α : Type} {g : List (List α)} {y x : Int} {t : α}
    (h : gget g y x = some t) :
    0 ≤ y ∧ 0 ≤ x ∧ y.toNat < g.length ∧
      x.toNat < (g.getD y.toNat []).length := by
  unfold gget at h
  by_cases hneg : y < 0 ∨ x < 0
  · rw [if_pos hneg] at h
    exact absurd h (by simp)
  · rw [if_neg hneg] at h
    push_neg at hneg
    cases hb : g[y.toNat]? with
    | none =>
        rw [hb] at h
        exact absurd h (by simp)
    | some row =>
        rw [hb] at h
        obtain ⟨hy, hrow⟩ := List.getElem?_eq_some_iff.mp hb
        obtain ⟨hx, _⟩ := List.getElem?_eq_some_iff.mp h
        refine ⟨hneg.1, hneg.2, hy, ?_⟩
        rw [List.getD_eq_getElem?_getD, hb]
        exact hx

/-- A successful `gset` is an in-place row update. -/
theorem gset_eq {α : Type} {g g2 : List (List α)} {y x : Int} {c : α}
    (h : gset g y x c = some g2) :
    g2 = g.set y.toNat ((g.getD y.toNat []).set x.toNat c) ∧
      ∃ t, gget g y x = some t := by
  unfold gset at h
  cases hge : gget g y x with
  | none =>
      rw [hge] at h
      exact absurd h (by simp)
  | some t =>
      rw [hge] at h
      simp only [Option.some.injEq] at h
      exact ⟨h.symm, t, rfl⟩

/-- Writing a `P`-entry into a `P`-grid keeps it a `P`-grid of the same
dimensions. -/
theorem gset_gridOk {α : Type} {rows cols : Nat} {P : α → Prop}
    {b b2 : List (List α)}
    {y x : Int} {c : α} (hg : GridOk rows cols P b) (hC : P c)
    (h : gset b y x c = some b2) : GridOk rows cols P b2 := by
  obtain ⟨heq, t, hget⟩ := gset_eq h
  obtain ⟨hy0, hx0, hy, hx⟩ := gget_some_bounds hget
  obtain ⟨hlen, hrow⟩ := hg
  subst heq
  refine ⟨by simp [hlen], ?_⟩
  intro row hmem
  rcases List.mem_or_eq_of_mem_set hmem with hmem2 | hroweq
  · exact hrow row hmem2
  · subst hroweq
    have hbmem : b.getD y.toNat [] ∈ b := by
      rw [List.getD_eq_getElem _ _ hy]
      exact List.getElem_mem hy
    obtain ⟨hrl, hrc⟩ := hrow _ hbmem
    refine ⟨by rw [List.length_set]; exact hrl, ?_⟩
    intro ch hch
    rcases List.mem_or_eq_of_mem_set hch with hch2 | hcheq
    · exact hrc ch hch2
    · subst hcheq
      exact hC

/-- A carving move keeps the board a `P`-grid (it only writes Empty). -/
theorem carve_gridOk {rows cols : Nat} {P : Char → Prop}
    {st st2 : GenState} {mv : Direction}
    (hg : GridOk rows cols P st.board) (hP : P TILE_EMPTY)
    (h : carve st mv = some st2) : GridOk rows cols P st2.board := by
  unfold carve at h
  split at h
  · exact absurd h (by simp)
  · rename_i b1 hb1
    split at h
    · exact absurd h (by simp)
    · rename_i b2 hb2
      simp only [Option.some.injEq] at h
      rw [← h]
      exact gset_gridOk (gset_gridOk hg hP hb1) hP hb2

/-- The whole carving loop keeps the board a `P`-grid. -/
theorem genLoop_gridOk {rows cols : Nat} {P : Char → Prop}
    (hP : P TILE_EMPTY) (width height : Int) (gR : Nat → Nat) :
    ∀ (fuel : Nat) (st st2 : GenState),
      genLoop width height gR fuel st = .ok st2 →
      GridOk rows cols P st.board → GridOk rows cols P st2.board := by
  intro fuel
  induction fuel with
  | zero =>
      intro st st2 h
      exact absurd h (by simp [genLoop])
  | succ f ih =>
      intro st st2 h hg
      rw [genLoop] at h
      split at h
      · simp only [RunRes.ok.injEq] at h
        rw [← h]
        exact hg
      · split at h
        · exact absurd h (by simp)
        · rename_i dirs heqdirs
          split at h
          · split at h
            · exact absurd h (by simp)
            · exact ih _ _ h hg
          · split at h
            · exact absurd h (by simp)
            · rename_i stc hcarve
              have hg2 : GridOk rows cols P
                  ({ st with k := st.k + 1 } : GenState).board := hg
              exact ih _ _ h (carve_gridOk hg2 hP hcarve)

/-- Replacing one element changes a tile count by at most one. -/
theorem count_set_le (l : List Char) (i : Nat) (c d : Char) :
    (l.set i c).count d ≤ l.count d + (if c = d then 1 else 0) := by
  induction l generalizing i with
  | nil => simp
  | cons a tl ih =>
      cases i with
      | zero =>
          simp only [List.set, List.count_cons, beq_iff_eq]
          split_ifs <;> omega
      | succ n =>
          simp only [List.set, List.count_cons, beq_iff_eq]
          have := ih n
          split_ifs at this ⊢ <;> omega

/-- Auxiliary: a row update changes the grid count by at most `k` when the
new row's count exceeds the old one's by at most `k`. -/
theorem countGrid_set_row_le (d : Char) (b : Board) (k : Nat) :
    ∀ (n : Nat) (r2 : List Char),
      (∀ row, b[n]? = some row → r2.count d ≤ row.count d + k) →
      countGrid d (b.set n r2) ≤ countGrid d b + k := by
  induction b with
  | nil => intro n r2 _; simp [countGrid]
  | cons row rest ih =>
      intro n r2 hcount
      cases n with
      | zero =>
          have := hcount row (by simp)
          simp only [List.set, countGrid, List.map_cons, List.sum_cons]
          omega
      | succ m =>
          have := ih m r2 (fun r hr => hcount r (by simpa using hr))
          simp only [List.set, countGrid, List.map_cons, List.sum_cons] at this ⊢
          omega

/-- A single `gset` bumps the count of the written tile by at most one and
does not raise the count of any other tile. -/
theorem countGrid_gset_le {b b2 : Board} {y x : Int} {c : Char}
    (h : gset b y x c = some b2) (d : Char) :
    countGrid d b2 ≤ countGrid d b + (if c = d then 1 else 0) := by
  obtain ⟨heq, t, hget⟩ := gset_eq h
  obtain ⟨hy0, hx0, hy, hx⟩ := gget_some_bounds hget
  subst heq
  apply countGrid_set_row_le
  intro row hrow
  have : b.getD y.toNat [] = row := by
    rw [List.getD_eq_getElem?_getD, hrow]
    rfl
  rw [← this]
  exact count_set_le _ _ _ _

/-- A grid whose tiles all avoid `c` contains no `c`. -/
theorem countGrid_eq_zero {b : Board} {c : Char}
    (h : ∀ row ∈ b, ∀ ch ∈ row, ch ≠ c) : countGrid c b = 0 := by
  induction b with
  | nil => rfl
  | cons row rest ih =>
      have h1 : row.count c = 0 :=
        List.count_eq_zero.mpr (fun hmem => h row (by simp) c hmem rfl)
      have h2 : countGrid c rest = 0 :=
        ih (fun r hr ch hch => h r (List.mem_cons_of_mem row hr) ch hch)
      simp [countGrid, h1]
      simpa [countGrid] using h2

/-- Weakening the entry predicate of a grid. -/
theorem GridOk.mono {α : Type} {rows cols : Nat} {P Q : α → Prop}
    {b : List (List α)}
    (h : GridOk rows cols P b) (himp : ∀ c, P c → Q c) :
    GridOk rows cols Q b :=
  ⟨h.1, fun row hrow => ⟨(h.2 row hrow).1,
    fun c hc => himp c ((h.2 row hrow).2 c hc)⟩⟩

/-- When the overlay position misses every slot of the row, `DisplayText`
copies the row verbatim. -/
theorem displayRow_id {i : Nat} {px py : Int} {row : List Char} {j : Nat}
    (h : ∀ k : Nat, j ≤ k → k < j + row.length →
      ¬((k : Int) = px ∧ (i : Int) = py)) :
    displayRow i px py row j = row := by
  induction row generalizing j with
  | nil => rfl
  | cons t rest ih =>
      show (if (j : Int) = px ∧ (i : Int) = py then '@' else t) ::
        displayRow i px py rest (j + 1) = t :: rest
      have hj : j < j + (t :: rest).length := by
        simp only [List.length_cons]
        omega
      rw [if_neg (h j le_rfl hj)]
      rw [ih (fun k hk1 hk2 => h k (by omega)
        (by simp only [List.length_cons]; omega))]

/-- When the overlay position misses every slot of the board,
`DisplayText` is row-joining with newlines. -/
theorem displayRows_id {px py : Int} (b : Board) (i0 : Nat)
    (h : ∀ (i k : Nat), i0 ≤ i → i < i0 + b.length →
      k < (b.getD (i - i0) []).length →
      ¬((k : Int) = px ∧ (i : Int) = py)) :
    displayRows px py b i0 = joinNL b := by
  induction b generalizing i0 with
  | nil => rfl
  | cons row rest ih =>
      show displayRow i0 px py row 0 ++ '\n' :: displayRows px py rest (i0 + 1)
        = row ++ '\n' :: joinNL rest
      rw [displayRow_id (fun k _ hk2 => by
        refine h i0 k le_rfl ?_ ?_
        · simp only [List.length_cons]
          omega
        · simpa using hk2)]
      rw [ih (i0 + 1) (fun i k hi1 hi2 hk => by
        refine h i k (by omega) ?_ ?_
        · simp only [List.length_cons]
          omega
        · have hsub : i - i0 = (i - (i0 + 1)) + 1 := by omega
          rw [hsub]
          simpa using hk)]

/-- Splitting undoes joining one newline-free line. -/
theorem goSplitLines_append_newline (r s : List Char)
    (h : ∀ c ∈ r, c ≠ '\n') :
    goSplitLines (r ++ '\n' :: s) = r :: goSplitLines s := by
  induction r with
  | nil => simp [goSplitLines]
  | cons c cr ih =>
      have hc : c ≠ '\n' := h c (by simp)
      have ihr := ih (fun x hx => h x (by simp [hx]))
      show goSplitLines (c :: (cr ++ '\n' :: s)) = (c :: cr) :: goSplitLines s
      rw [goSplitLines, if_neg hc, ihr]

/-- Splitting undoes joining a board of newline-free rows, up to the final
empty piece produced by the trailing newline. -/
theorem goSplitLines_joinNL (b : Board)
    (h : ∀ row ∈ b, ∀ c ∈ row, c ≠ '\n') :
    goSplitLines (joinNL b) = b ++ [[]] := by
  induction b with
  | nil => rfl
  | cons row rest ih =>
      show goSplitLines (row ++ '\n' :: joinNL rest) = (row :: rest) ++ [[]]
      rw [goSplitLines_append_newline _ _ (h row (by simp)),
        ih (fun r hr c hc => h r (List.mem_cons_of_mem row hr) c hc)]
      rfl

/-- On a row of maze tiles (Empty, Wall, Start, End) whose Start/End
occurrences fit the remaining budget, the row loop of
`LoadMazeFromString` returns the row unchanged and bumps the counters. -/
theorem parseRow_valid (l : List Char) (i : Nat) :
    ∀ (j : Nat) (ls : LoadSt),
      (∀ c ∈ l,
        c = TILE_EMPTY ∨ c = TILE_WALL ∨ c = TILE_START ∨ c = TILE_END) →
      0 ≤ ls.starts → ls.starts + (l.count TILE_START : Int) ≤ 1 →
      0 ≤ ls.ends → ls.ends + (l.count TILE_END : Int) ≤ 1 →
      ∃ ls2, parseRow i l j ls = .ok (l, ls2) ∧ ls2.board = ls.board ∧
        ls2.width = ls.width ∧
        ls2.starts = ls.starts + (l.count TILE_START : Int) ∧
        ls2.ends = ls.ends + (l.count TILE_END : Int) := by
  induction l with
  | nil =>
      intro j ls _ _ _ _ _
      exact ⟨ls, rfl, rfl, rfl, by simp, by simp⟩
  | cons c rest ih =>
      intro j ls hc hs0 hs1 he0 he1
      have hcr : ∀ x ∈ rest,
          x = TILE_EMPTY ∨ x = TILE_WALL ∨ x = TILE_START ∨ x = TILE_END :=
        fun x hx => hc x (List.mem_cons_of_mem c hx)
      rcases hc c (List.mem_cons_self c rest) with h | h | h | h <;> subst h
      · -- Empty tile
        have hS : (TILE_EMPTY :: rest).count TILE_START =
            rest.count TILE_START := by
          rw [List.count_cons, if_neg (by decide), Nat.add_zero]
        have hE : (TILE_EMPTY :: rest).count TILE_END =
            rest.count TILE_END := by
          rw [List.count_cons, if_neg (by decide), Nat.add_zero]
        rw [hS] at hs1
        rw [hE] at he1
        obtain ⟨ls2, h1, h2, h3, h4, h5⟩ := ih (j + 1) ls hcr hs0 hs1 he0 he1
        refine ⟨ls2, ?_, h2, h3, by rw [hS]; exact h4, by rw [hE]; exact h5⟩
        show (match parseRow i rest (j + 1) ls with
              | .error e => .error e
              | .ok (r, ls2) => .ok (TILE_EMPTY :: r, ls2)) =
          Except.ok (TILE_EMPTY :: rest, ls2)
        rw [h1]
      · -- Wall tile
        have hS : (TILE_WALL :: rest).count TILE_START =
            rest.count TILE_START := by
          rw [List.count_cons, if_neg (by decide), Nat.add_zero]
        have hE : (TILE_WALL :: rest).count TILE_END =
            rest.count TILE_END := by
          rw [List.count_cons, if_neg (by decide), Nat.add_zero]
        rw [hS] at hs1
        rw [hE] at he1
        obtain ⟨ls2, h1, h2, h3, h4, h5⟩ := ih (j + 1) ls hcr hs0 hs1 he0 he1
        refine ⟨ls2, ?_, h2, h3, by rw [hS]; exact h4, by rw [hE]; exact h5⟩
        show (match parseRow i rest (j + 1) ls with
              | .error e => .error e
              | .ok (r, ls2) => .ok (TILE_WALL :: r, ls2)) =
          Except.ok (TILE_WALL :: rest, ls2)
        rw [h1]
      · -- Start tile
        have hS : (TILE_START :: rest).count TILE_START =
            rest.count TILE_START + 1 := by
          rw [List.count_cons, if_pos (by decide)]
        have hE : (TILE_START :: rest).count TILE_END =
            rest.count TILE_END := by
          rw [List.count_cons, if_neg (by decide), Nat.add_zero]
        rw [hS] at hs1
        rw [hE] at he1
        have hnotpos : ¬ ls.starts > 0 := by omega
        obtain ⟨ls2, h1, h2, h3, h4, h5⟩ := ih (j + 1)
          { ls with startX := (j : Int), startY := (i : Int),
                    starts := ls.starts + 1 }
          hcr (by dsimp only; omega) (by dsimp only; omega)
          (by dsimp only; omega) (by dsimp only; omega)
        refine ⟨ls2, ?_, h2, h3, ?_, ?_⟩
        · show (if ls.starts > 0 then
                  Except.error "Maze cannot have multiple start points"
                else
                  match parseRow i rest (j + 1)
                      { ls with startX := (j : Int), startY := (i : Int),
                                starts := ls.starts + 1 } with
                  | .error e => .error e
                  | .ok (r, ls2) => .ok (TILE_START :: r, ls2)) =
            Except.ok (TILE_START :: rest, ls2)
          rw [if_neg hnotpos, h1]
        · rw [h4, hS]
          dsimp only
          push_cast
          omega
        · rw [h5, hE]
      · -- End tile
        have hS : (TILE_END :: rest).count TILE_START =
            rest.count TILE_START := by
          rw [List.count_cons, if_neg (by decide), Nat.add_zero]
        have hE : (TILE_END :: rest).count TILE_END =
            rest.count TILE_END + 1 := by
          rw [List.count_cons, if_pos (by decide)]
        rw [hS] at hs1
        rw [hE] at he1
        have hnotpos : ¬ ls.ends > 0 := by omega
        obtain ⟨ls2, h1, h2, h3, h4, h5⟩ := ih (j + 1)
          { ls with endX := (j : Int), endY := (i : Int),
                    ends := ls.ends + 1 }
          hcr (by dsimp only; omega) (by dsimp only; omega)
          (by dsimp only; omega) (by dsimp only; omega)
        refine ⟨ls2, ?_, h2, h3, ?_, ?_⟩
        · show (if ls.ends > 0 then
                  Except.error "Maze cannot have multiple end points"
                else
                  match parseRow i rest (j + 1)
                      { ls with endX := (j : Int), endY := (i : Int),
                                ends := ls.ends + 1 } with
                  | .error e => .error e
                  | .ok (r, ls2) => .ok (TILE_END :: r, ls2)) =
            Except.ok (TILE_END :: rest, ls2)
          rw [if_neg hnotpos, h1]
        · rw [h4, hS]
        · rw [h5, hE]
          dsimp only
          push_cast
          omega
/-- Unfolding of one non-empty-line step of the loader's line loop. -/
theorem loadLoop_cons_step (l : List Char) (rest : List (List Char))
    (i : Nat) (ls ls1 : LoadSt) (hlne : ¬ l.length = 0)
    (hcheck : (if ls.width = -1 then
          Except.ok { ls with width := (l.length : Int) }
        else if ls.width ≠ (l.length : Int) then
          Except.error "All rows in a maze must have the same length"
        else Except.ok ls : Except String LoadSt) = Except.ok ls1)
    (row : List Char) (ls2 : LoadSt)
    (hpr : parseRow i l 0 ls1 = .ok (row, ls2)) :
    loadLoop (l :: rest) i ls =
      loadLoop rest (i + 1) { ls2 with board := ls2.board ++ [row] } := by
  show (if l.length = 0 then loadLoop rest (i + 1) ls else
        match (if ls.width = -1 then
            Except.ok { ls with width := (l.length : Int) }
          else if ls.width ≠ (l.length : Int) then
            Except.error "All rows in a maze must have the same length"
          else Except.ok ls : Except String LoadSt) with
        | .error e => .error e
        | .ok ls1 =>
            match parseRow i l 0 ls1 with
            | .error e => .error e
            | .ok (row, ls2) =>
                loadLoop rest (i + 1) { ls2 with board := ls2.board ++ [row] })
      = loadLoop rest (i + 1) { ls2 with board := ls2.board ++ [row] }
  rw [if_neg hlne, hcheck]
  show (match parseRow i l 0 ls1 with
        | .error e => .error e
        | .ok (row, ls2) =>
            loadLoop rest (i + 1) { ls2 with board := ls2.board ++ [row] })
      = loadLoop rest (i + 1) { ls2 with board := ls2.board ++ [row] }
  rw [hpr]

/-- On lines of maze tiles, all of one non-zero width, with at most one
Start and at most one End in total, the line loop of `LoadMazeFromString`
succeeds and its board is the non-empty lines, verbatim. -/
theorem loadLoop_valid (rows : List (List Char)) (L : Nat) (hL : L ≠ 0) :
    ∀ (i : Nat) (ls : LoadSt),
      (∀ l ∈ rows, ∀ c ∈ l,
        c = TILE_EMPTY ∨ c = TILE_WALL ∨ c = TILE_START ∨ c = TILE_END) →
      (∀ l ∈ rows, l.length = 0 ∨ l.length = L) →
      ls.width = -1 ∨ ls.width = (L : Int) →
      0 ≤ ls.starts → ls.starts + (countGrid TILE_START rows : Int) ≤ 1 →
      0 ≤ ls.ends → ls.ends + (countGrid TILE_END rows : Int) ≤ 1 →
      ∃ ls2, loadLoop rows i ls = .ok ls2 ∧
        ls2.board = ls.board ++ rows.filter (fun l => !(l.isEmpty)) := by
  induction rows with
  | nil =>
      intro i ls _ _ _ _ _ _ _
      exact ⟨ls, rfl, by simp⟩
  | cons l rest ih =>
      intro i ls hc hrect hw hs0 hs1 he0 he1
      have hcrest : ∀ x ∈ rest, ∀ c ∈ x,
          c = TILE_EMPTY ∨ c = TILE_WALL ∨ c = TILE_START ∨ c = TILE_END :=
        fun x hx => hc x (List.mem_cons_of_mem l hx)
      have hrrest : ∀ x ∈ rest, x.length = 0 ∨ x.length = L :=
        fun x hx => hrect x (List.mem_cons_of_mem l hx)
      have hcl : ∀ c ∈ l,
          c = TILE_EMPTY ∨ c = TILE_WALL ∨ c = TILE_START ∨ c = TILE_END :=
        hc l (List.mem_cons_self l rest)
      have hcount : countGrid TILE_START (l :: rest) =
          l.count TILE_START + countGrid TILE_START rest := by
        simp [countGrid]
      have hcountE : countGrid TILE_END (l :: rest) =
          l.count TILE_END + countGrid TILE_END rest := by
        simp [countGrid]
      rw [hcount] at hs1
      rw [hcountE] at he1
      rcases hrect l (List.mem_cons_self l rest) with hl | hl
      · -- empty line: skipped, and filtered out of the board
        have hlnil : l = [] := List.length_eq_zero.mp hl
        subst hlnil
        obtain ⟨ls2, h1, h2⟩ := ih (i + 1) ls hcrest hrrest hw hs0
          (by simpa using hs1) he0 (by simpa using he1)
        refine ⟨ls2, ?_, ?_⟩
        · show loadLoop rest (i + 1) ls = Except.ok ls2
          exact h1
        · rw [h2]
          simp
      · -- line of width L
        have hlne : ¬ l.length = 0 := by omega
        have hfilter : (!(l.isEmpty)) = true := by
          cases l with
          | nil => simp at hlne
          | cons a as => simp
        rcases hw with hw | hw
        · -- width still unset: it becomes the row length
          obtain ⟨ls1, hpr, hb1, hw1, hst1, hen1⟩ :=
            parseRow_valid l i 0 { ls with width := (l.length : Int) } hcl
              (by dsimp only; omega) (by dsimp only; omega)
              (by dsimp only; omega) (by dsimp only; omega)
          have hb1h : ls1.board = ls.board := hb1
          have hw1h : ls1.width = (l.length : Int) := hw1
          have hst1h : ls1.starts = ls.starts + (l.count TILE_START : Int) :=
            hst1
          have hen1h : ls1.ends = ls.ends + (l.count TILE_END : Int) := hen1
          obtain ⟨ls2, h1, h2⟩ := ih (i + 1)
            { ls1 with board := ls1.board ++ [l] } hcrest hrrest
            (Or.inr (by dsimp only; rw [hw1h, hl]))
            (by dsimp only; omega)
            (by dsimp only; rw [hst1h]; omega)
            (by dsimp only; omega)
            (by dsimp only; rw [hen1h]; omega)
          refine ⟨ls2, ?_, ?_⟩
          · rw [loadLoop_cons_step l rest i ls
              { ls with width := (l.length : Int) } hlne
              (by rw [if_pos hw]) l ls1 hpr]
            exact h1
          · rw [h2]
            dsimp only
            rw [hb1h, List.filter_cons]
            simp [hfilter]
        · -- width already set to the common width
          have hnotm1 : ¬ ls.width = -1 := by rw [hw]; omega
          have hwidthok : ¬ ls.width ≠ (l.length : Int) := by
            rw [hw, hl]
            simp
          obtain ⟨ls1, hpr, hb1, hw1, hst1, hen1⟩ :=
            parseRow_valid l i 0 ls hcl hs0 (by omega) he0 (by omega)
          obtain ⟨ls2, h1, h2⟩ := ih (i + 1)
            { ls1 with board := ls1.board ++ [l] } hcrest hrrest
            (Or.inr (by dsimp only; rw [hw1, hw]))
            (by dsimp only; omega)
            (by dsimp only; rw [hst1]; omega)
            (by dsimp only; omega)
            (by dsimp only; rw [hen1]; omega)
          refine ⟨ls2, ?_, ?_⟩
          · rw [loadLoop_cons_step l rest i ls ls hlne
              (by rw [if_neg hnotm1, if_neg hwidthok]) l ls1 hpr]
            exact h1
          · rw [h2]
            dsimp only
            rw [hb1, List.filter_cons]
            simp [hfilter]
/-- Claim C9: parsing the textual rendering of any maze returned by
`GenerateMaze` — with the player overlay placed outside the board, so
that no overlay character is emitted — reproduces exactly the same tile
grid as the original board. -/
theorem generateMaze_roundtrip (width height : Int) (sR gR : Nat → Nat)
    (fuel : Nat) (m : Maze)
    (hm : GenerateMaze width height sR gR fuel = .ok m) (px py : Int)
    (hp : px < 0 ∨ py < 0 ∨ (m.Board.length : Int) ≤ py ∨
      ((m.Board.headD []).length : Int) ≤ px) :
    ∃ m2, LoadMazeFromString (DisplayText m px py) = .ok m2 ∧
      m2.Board = m.Board := by
  unfold GenerateMaze at hm
  split at hm <;> try { exfalso; simp at hm }
  rename_i hh
  split at hm <;> try { exfalso; simp at hm }
  rename_i hw
  split at hm <;> try { exfalso; simp at hm }
  rename_i x hx
  split at hm <;> try { exfalso; simp at hm }
  rename_i y hy
  split at hm <;> try { exfalso; simp at hm }
  rename_i st heqGen
  split at hm <;> try { exfalso; simp at hm }
  rename_i src dest dist heqSel
  split at hm <;> try { exfalso; simp at hm }
  rename_i b1 heqB1
  split at hm <;> try { exfalso; simp at hm }
  rename_i b2 heqB2
  simp only [RunRes.ok.injEq] at hm
  have hmB : m.Board = b2 := by rw [← hm]
  -- the carved board is a wall/empty grid of the full dimensions
  have hg0 : GridOk (2 * height + 1).toNat (2 * width + 1).toNat
      (fun c => c = TILE_EMPTY ∨ c = TILE_WALL)
      (List.replicate (2 * height + 1).toNat
        (List.replicate (2 * width + 1).toNat TILE_WALL)) := by
    refine ⟨List.length_replicate _ _, fun row hrow => ?_⟩
    rw [List.eq_of_mem_replicate hrow]
    exact ⟨List.length_replicate _ _,
      fun c hc => Or.inr (List.eq_of_mem_replicate hc)⟩
  have hgSt : GridOk (2 * height + 1).toNat (2 * width + 1).toNat
      (fun c => c = TILE_EMPTY ∨ c = TILE_WALL) st.board :=
    genLoop_gridOk (Or.inl rfl) width height gR fuel _ st heqGen hg0
  -- counts of Start/End tiles after stamping
  have hz1 : countGrid TILE_START st.board = 0 :=
    countGrid_eq_zero (fun row hr ch hch => by
      rcases (hgSt.2 row hr).2 ch hch with h | h <;> subst h <;> decide)
  have hz2 : countGrid TILE_END st.board = 0 :=
    countGrid_eq_zero (fun row hr ch hch => by
      rcases (hgSt.2 row hr).2 ch hch with h | h <;> subst h <;> decide)
  have hcS1 := countGrid_gset_le heqB1 TILE_START
  have hcE1 := countGrid_gset_le heqB1 TILE_END
  have hcS2 := countGrid_gset_le heqB2 TILE_START
  have hcE2 := countGrid_gset_le heqB2 TILE_END
  rw [hz1, if_pos rfl] at hcS1
  rw [hz2, if_neg (by decide)] at hcE1
  rw [if_neg (by decide)] at hcS2
  rw [if_pos rfl] at hcE2
  have hcS : countGrid TILE_START b2 ≤ 1 := by omega
  have hcE : countGrid TILE_END b2 ≤ 1 := by omega
  -- the stamped board is a 4-tile grid
  have hg4 : GridOk (2 * height + 1).toNat (2 * width + 1).toNat
      (fun c => c = TILE_EMPTY ∨ c = TILE_WALL ∨ c = TILE_START ∨
        c = TILE_END) b2 := by
    refine gset_gridOk (gset_gridOk (hgSt.mono ?_) ?_ heqB1) ?_ heqB2
    · intro c hc
      rcases hc with h | h
      · exact Or.inl h
      · exact Or.inr (Or.inl h)
    · exact Or.inr (Or.inr (Or.inl rfl))
    · exact Or.inr (Or.inr (Or.inr rfl))
  have hRne : (2 * height + 1).toNat ≠ 0 := by omega
  have hLne : (2 * width + 1).toNat ≠ 0 := by omega
  have hlen : m.Board.length = (2 * height + 1).toNat := by
    rw [hmB]
    exact hg4.1
  have hLrows : ∀ row ∈ m.Board, row.length = (2 * width + 1).toNat := by
    intro row hr
    rw [hmB] at hr
    exact (hg4.2 row hr).1
  have hchars : ∀ row ∈ m.Board, ∀ c ∈ row,
      c = TILE_EMPTY ∨ c = TILE_WALL ∨ c = TILE_START ∨ c = TILE_END := by
    intro row hr
    rw [hmB] at hr
    exact (hg4.2 row hr).2
  have hhead : (m.Board.headD []).length = (2 * width + 1).toNat := by
    cases hmb : m.Board with
    | nil =>
        rw [hmb] at hlen
        simp at hlen
        omega
    | cons r rs =>
        have : r ∈ m.Board := by rw [hmb]; exact List.mem_cons_self r rs
        simpa using hLrows r this
  -- rendering with the overlay outside the board is plain row-joining
  have hdt : DisplayText m px py = joinNL m.Board := by
    unfold DisplayText
    apply displayRows_id
    intro i k hi0 hi hk
    rintro ⟨hkx, hiy⟩
    have hi2 : i < m.Board.length := by simpa using hi
    have hmem : m.Board.getD i [] ∈ m.Board := by
      rw [List.getD_eq_getElem _ _ hi2]
      exact List.getElem_mem hi2
    have hklen : k < (2 * width + 1).toNat := by
      have hgl := hLrows _ hmem
      rw [Nat.sub_zero] at hk
      omega
    rcases hp with hp | hp | hp | hp
    · omega
    · omega
    · omega
    · rw [hhead] at hp
      omega
  have hsplit : goSplitLines (DisplayText m px py) = m.Board ++ [[]] := by
    rw [hdt]
    exact goSplitLines_joinNL m.Board (fun row hr c hc => by
      rcases hchars row hr c hc with h | h | h | h <;> subst h <;> decide)
  -- run the loader over the rows
  have hcG : countGrid TILE_START (m.Board ++ [[]]) =
      countGrid TILE_START m.Board := by
    simp [countGrid]
  have hcG2 : countGrid TILE_END (m.Board ++ [[]]) =
      countGrid TILE_END m.Board := by
    simp [countGrid]
  obtain ⟨ls2, hload, hboard⟩ :=
    loadLoop_valid (m.Board ++ [[]]) (2 * width + 1).toNat hLne 0
      { board := [], startX := 0, startY := 0, endX := 0, endY := 0,
        starts := 0, ends := 0, width := -1 }
      (by
        intro l hl c hc
        rcases List.mem_append.mp hl with h | h
        · exact hchars l h c hc
        · simp at h
          subst h
          simp at hc)
      (by
        intro l hl
        rcases List.mem_append.mp hl with h | h
        · exact Or.inr (hLrows l h)
        · simp at h
          subst h
          simp)
      (Or.inl rfl)
      (by norm_num)
      (by
        rw [hcG]
        rw [hmB]
        dsimp only
        omega)
      (by norm_num)
      (by
        rw [hcG2]
        rw [hmB]
        dsimp only
        omega)
  have hfilterall : (m.Board ++ [[]]).filter (fun l => !(l.isEmpty)) =
      m.Board := by
    rw [List.filter_append]
    have h1 : m.Board.filter (fun l => !(l.isEmpty)) = m.Board := by
      apply List.filter_eq_self.mpr
      intro a ha
      have := hLrows a ha
      cases a with
      | nil => simp at this; omega
      | cons c cs => simp
    rw [h1]
    simp
  refine ⟨{ Board := ls2.board, Start := Coords.mk ls2.startX ls2.startY,
            End := Coords.mk ls2.endX ls2.endY, PathLen := -1,
            Height := (ls2.board.length : Int), Width := ls2.width },
      ?_, ?_⟩
  · unfold LoadMazeFromString
    rw [hsplit, hload]
  · show ls2.board = m.Board
    rw [hboard, hfilterall]
    simp

/-- Witness for Claim C9 at the concrete generated maze `mazeDemo` and
overlay position (-1, -1). -/
theorem generateMaze_roundtrip_witness :
    (GenerateMaze 2 2 streamZero streamCycle 500 = RunRes.ok mazeDemo ∧
      ((-1 : Int) < 0 ∨ (-1 : Int) < 0 ∨
        ((mazeDemo.Board.length : Int) ≤ -1 ∨
          ((mazeDemo.Board.headD []).length : Int) ≤ -1))) ∧
    ∃ m2, LoadMazeFromString (DisplayText mazeDemo (-1) (-1)) = .ok m2 ∧
      m2.Board = mazeDemo.Board :=
  ⟨⟨by decide, Or.inl (by decide)⟩,
   generateMaze_roundtrip 2 2 streamZero streamCycle 500 mazeDemo
     (by decide) (-1) (-1) (Or.inl (by decide))⟩

/-! ## Claim C5: the shortest-path engine computes exact distances.
General lemmas about the queue, the grids and the counters. -/

/-- A swap does not change queue membership. -/
theorem mem_lswap {q : List QItem} {i j : Nat} {a : QItem} :
    a ∈ lswap q i j ↔ a ∈ q := by
  unfold lswap
  cases hi : q[i]? with
  | none => exact Iff.rfl
  | some x =>
      cases hj : q[j]? with
      | none => exact Iff.rfl
      | some y =>
          obtain ⟨hil, hix⟩ := List.getElem?_eq_some_iff.mp hi
          obtain ⟨hjl, hjy⟩ := List.getElem?_eq_some_iff.mp hj
          constructor
          · intro hmem
            rcases List.mem_or_eq_of_mem_set hmem with h2 | h2
            · rcases List.mem_or_eq_of_mem_set h2 with h3 | h3
              · exact h3
              · rw [h3, ← hjy]
                exact List.getElem_mem hjl
            · rw [h2, ← hix]
              exact List.getElem_mem hil
          · intro hmem
            obtain ⟨n, hn, hval⟩ := List.mem_iff_getElem.mp hmem
            by_cases hni : n = i
            · subst hni
              refine List.mem_iff_getElem.mpr ⟨j, by simpa using hjl, ?_⟩
              rw [List.getElem_set, if_pos rfl, ← hix]
              exact hval
            · by_cases hnj : n = j
              · subst hnj
                refine List.mem_iff_getElem.mpr ⟨i, by simpa using hil, ?_⟩
                rw [List.getElem_set, if_neg (by omega), List.getElem_set,
                  if_pos rfl, ← hjy]
                exact hval
              · refine List.mem_iff_getElem.mpr ⟨n, by simpa using hn, ?_⟩
                rw [List.getElem_set, if_neg (by omega), List.getElem_set,
                  if_neg (by omega)]
                exact hval

/-- Sifting does not change queue membership. -/
theorem mem_siftUpF :
    ∀ (f : Nat) (q : List QItem) (j : Nat) {a : QItem},
      a ∈ siftUpF f q j ↔ a ∈ q := by
  intro f
  induction f with
  | zero => intro q j a; exact Iff.rfl
  | succ f ih =>
      intro q j a
      cases j with
      | zero => exact Iff.rfl
      | succ jj =>
          show a ∈ (if qwgt q (jj + 1) < qwgt q (jj / 2) then
              siftUpF f (lswap q (jj / 2) (jj + 1)) (jj / 2) else q) ↔ a ∈ q
          split
          · rw [ih, mem_lswap]
          · exact Iff.rfl

/-- `heap.Push` adds exactly the pushed item to the queue's members. -/
theorem mem_heapPush {q : List QItem} {x a : QItem} :
    a ∈ heapPush q x ↔ a ∈ q ∨ a = x := by
  unfold heapPush siftUp
  rw [mem_siftUpF]
  simp

/-- Reading inside a `P`-grid succeeds and returns a `P`-entry. -/
theorem gget_inbounds {α : Type} {g : List (List α)} {rows cols : Nat}
    {P : α → Prop} (hg : GridOk rows cols P g) {y x : Int}
    (hy : 0 ≤ y) (hy2 : y < (rows : Int)) (hx : 0 ≤ x)
    (hx2 : x < (cols : Int)) : ∃ t, gget g y x = some t ∧ P t := by
  obtain ⟨hlen, hrow⟩ := hg
  have hyl : y.toNat < g.length := by omega
  have hmem : g[y.toNat] ∈ g := List.getElem_mem hyl
  obtain ⟨hrl, hrP⟩ := hrow _ hmem
  have hxl : x.toNat < g[y.toNat].length := by omega
  refine ⟨g[y.toNat][x.toNat], ?_, hrP _ (List.getElem_mem hxl)⟩
  unfold gget
  rw [if_neg (by omega), List.getElem?_eq_getElem hyl]
  show g[y.toNat][x.toNat]? = some g[y.toNat][x.toNat]
  exact List.getElem?_eq_getElem hxl

/-- Writing inside a grid succeeds. -/
theorem gset_inbounds {α : Type} {g : List (List α)} {rows cols : Nat}
    {P : α → Prop} (hg : GridOk rows cols P g) {y x : Int}
    (hy : 0 ≤ y) (hy2 : y < (rows : Int)) (hx : 0 ≤ x)
    (hx2 : x < (cols : Int)) (c : α) : ∃ g2, gset g y x c = some g2 := by
  obtain ⟨t, ht, _⟩ := gget_inbounds hg hy hy2 hx hx2
  unfold gset
  rw [ht]
  exact ⟨_, rfl⟩

/-- Reading back a written entry. -/
theorem gget_gset_self {α : Type} {g g2 : List (List α)} {y x : Int}
    {c : α} (h : gset g y x c = some g2) : gget g2 y x = some c := by
  obtain ⟨heq, t, hget⟩ := gset_eq h
  obtain ⟨hy0, hx0, hy, hx⟩ := gget_some_bounds hget
  subst heq
  unfold gget
  rw [if_neg (by omega), List.getElem?_set_self (by omega)]
  show ((g.getD y.toNat []).set x.toNat c)[x.toNat]? = some c
  exact List.getElem?_set_self hx

/-- Reading an untouched entry after a write. -/
theorem gget_gset_other {α : Type} {g g2 : List (List α)} {y x y2 x2 : Int}
    {c : α} (h : gset g y x c = some g2) (hne : y2 ≠ y ∨ x2 ≠ x) :
    gget g2 y2 x2 = gget g y2 x2 := by
  obtain ⟨heq, t, hget⟩ := gset_eq h
  obtain ⟨hy0, hx0, hy, hx⟩ := gget_some_bounds hget
  subst heq
  unfold gget
  by_cases hneg : y2 < 0 ∨ x2 < 0
  · rw [if_pos hneg, if_pos hneg]
  · rw [if_neg hneg, if_neg hneg]
    push_neg at hneg
    by_cases hyy : y2 = y
    · have hxx : x2 ≠ x := by tauto
      subst hyy
      rw [List.getElem?_set_self (by omega), List.getElem?_eq_getElem hy]
      show ((g.getD y2.toNat []).set x.toNat c)[x2.toNat]? =
        g[y2.toNat][x2.toNat]?
      rw [List.getD_eq_getElem _ _ hy]
      exact List.getElem?_set_ne (by omega)
    · rw [List.getElem?_set_ne (by omega)]

/-- Go `+ 1` does not wrap below `math.MaxInt`. -/
theorem goAdd1_eq {a : Int} (h0 : 0 ≤ a) (h1 : a < maxInt) :
    goAdd1 a = a + 1 := by
  unfold goAdd1
  unfold maxInt at h1
  rw [Int.emod_eq_of_lt (by omega) (by omega)]
  omega

/-- Counting a weaker predicate counts at least as much. -/
theorem countP_mono_of_imp {α : Type} (l : List α) (p q' : α → Bool)
    (h : ∀ a ∈ l, p a = true → q' a = true) :
    l.countP p ≤ l.countP q' := by
  induction l with
  | nil => simp
  | cons a tl ih =>
      have htl := ih (fun x hx => h x (List.mem_cons_of_mem a hx))
      rw [List.countP_cons, List.countP_cons]
      by_cases hp : p a = true
      · rw [h a (List.mem_cons_self a tl) hp]
        simp [hp]
        omega
      · have : p a = false := by simpa using hp
        simp [this]
        omega

/-- Counting strictly grows when some member flips from false to true. -/
theorem countP_lt_of_flip {α : Type} (l : List α) (p q' : α → Bool)
    (h : ∀ a ∈ l, p a = true → q' a = true) (a0 : α) (ha : a0 ∈ l)
    (hp : p a0 = false) (hq : q' a0 = true) :
    l.countP p < l.countP q' := by
  induction l with
  | nil => simp at ha
  | cons a tl ih =>
      have hmono := countP_mono_of_imp tl p q'
        (fun x hx => h x (List.mem_cons_of_mem a hx))
      rw [List.countP_cons, List.countP_cons]
      rcases List.mem_cons.mp ha with h0 | h0
      · subst h0
        rw [hp, hq]
        simp
        omega
      · have hlt := ih (fun x hx => h x (List.mem_cons_of_mem a hx)) h0
        by_cases hpa : p a = true
        · rw [hpa, h a (List.mem_cons_self a tl) hpa]
          omega
        · have : p a = false := by simpa using hpa
          rw [this]
          simp
          omega

/-- A pointwise-smaller function has a no-larger sum. -/
theorem sum_map_le {α : Type} (l : List α) (f g : α → Nat)
    (hle : ∀ a ∈ l, g a ≤ f a) : (l.map g).sum ≤ (l.map f).sum := by
  induction l with
  | nil => simp
  | cons a tl ih =>
      have h1 := hle a (List.mem_cons_self a tl)
      have h2 := ih (fun x hx => hle x (List.mem_cons_of_mem a hx))
      simp only [List.map_cons, List.sum_cons]
      omega

/-- A pointwise-smaller function with one strict drop has smaller sum. -/
theorem sum_map_lt {α : Type} (l : List α) (f g : α → Nat)
    (hle : ∀ a ∈ l, g a ≤ f a) (a0 : α) (ha0 : a0 ∈ l)
    (hlt : g a0 < f a0) : (l.map g).sum < (l.map f).sum := by
  induction l with
  | nil => simp at ha0
  | cons a tl ih =>
      have hmono := sum_map_le tl f g
        (fun x hx => hle x (List.mem_cons_of_mem a hx))
      simp only [List.map_cons, List.sum_cons]
      rcases List.mem_cons.mp ha0 with h0 | h0
      · subst h0
        omega
      · have := hle a (List.mem_cons_self a tl)
        have h2 := ih (fun x hx => hle x (List.mem_cons_of_mem a hx)) h0
        omega

/-- Membership in one row of the cell enumeration. -/
theorem mem_rowCells {cy : Nat} {n : Nat} {v : Coords} :
    v ∈ rowCells cy n ↔ v.Y = (cy : Int) ∧ 0 ≤ v.X ∧ v.X < (n : Int) := by
  induction n with
  | zero =>
      simp [rowCells]
  | succ m ih =>
      show v ∈ rowCells cy m ++ [Coords.mk (m : Int) (cy : Int)] ↔ _
      rw [List.mem_append, List.mem_singleton, ih]
      constructor
      · rintro (⟨hY, h0, hlt⟩ | hv)
        · refine ⟨hY, h0, by omega⟩
        · subst hv
          dsimp only
          refine ⟨rfl, by omega, by omega⟩
      · rintro ⟨hY, h0, hlt⟩
        by_cases hm : v.X = (m : Int)
        · right
          cases v with
          | mk X Y =>
              dsimp only at hY hm
              rw [hY, hm]
        · left
          exact ⟨hY, h0, by omega⟩

/-- The cell list enumerates exactly the cell grid. -/
theorem mem_cellList {rw rh : Nat} {v : Coords} :
    v ∈ cellList rw rh ↔ cellInB rw rh v := by
  induction rh with
  | zero =>
      simp [cellList, cellInB]
  | succ m ih =>
      show v ∈ cellList rw m ++ rowCells m rw ↔ _
      rw [List.mem_append, ih, mem_rowCells]
      unfold cellInB
      constructor
      · rintro (⟨h1, h2, h3, h4⟩ | ⟨hY, h0, hlt⟩)
        · exact ⟨h1, h2, h3, by omega⟩
        · exact ⟨h0, hlt, by omega, by omega⟩
      · rintro ⟨h1, h2, h3, h4⟩
        by_cases hm : v.Y = (m : Int)
        · exact Or.inr ⟨hm, h1, h2⟩
        · exact Or.inl ⟨h1, h2, h3, by omega⟩

/-- A row of the cell enumeration has one entry per column. -/
theorem length_rowCells (cy : Nat) : ∀ n, (rowCells cy n).length = n := by
  intro n
  induction n with
  | zero => rfl
  | succ m ih =>
      show (rowCells cy m ++ [Coords.mk (m : Int) (cy : Int)]).length = m + 1
      rw [List.length_append, ih]
      rfl

/-- The cell enumeration has one entry per cell. -/
theorem length_cellList (rw : Nat) : ∀ rh, (cellList rw rh).length = rh * rw := by
  intro rh
  induction rh with
  | zero => simp [cellList]
  | succ m ih =>
      show (cellList rw m ++ rowCells m rw).length = (m + 1) * rw
      rw [List.length_append, ih, length_rowCells]
      ring

/-- At most every cell can have left the sentinel behind. -/
theorem finCount_le (rw rh : Nat) (dist : List (List Int)) :
    finCount rw rh dist ≤ rh * rw := by
  unfold finCount
  rw [← length_cellList rw rh]
  exact List.countP_le_length _

/-- Reach within `n` steps implies reach within `n + 1` steps. -/
theorem reachB_succ {b : Board} {rw rh : Nat} {s v : Coords} {n : Nat}
    (h : reachB b rw rh s n v = true) : reachB b rw rh s (n + 1) v = true := by
  show (reachB b rw rh s n v || _) = true
  rw [h]
  rfl

/-- Two coordinate pairs differ exactly when one of the components does. -/
theorem coords_ne_iff {u v : Coords} : u ≠ v ↔ u.X ≠ v.X ∨ u.Y ≠ v.Y := by
  cases u with
  | mk ux uy =>
      cases v with
      | mk vx vy =>
          constructor
          · intro h
            by_contra hc
            push_neg at hc
            obtain ⟨h1, h2⟩ := hc
            dsimp only at h1 h2
            subst h1
            subst h2
            exact h rfl
          · intro h hc
            cases hc
            dsimp only at h
            tauto

/-- Adjacent cells are distinct. -/
theorem adjB_ne {b : Board} {rw rh : Nat} {u v : Coords}
    (h : adjB b rw rh u v) : u ≠ v := by
  obtain ⟨_, _, hgeo, _⟩ := h
  rw [coords_ne_iff]
  rcases hgeo with ⟨_, h2 | h2⟩ | ⟨_, h2 | h2⟩ <;> [skip; skip; skip; skip] <;>
    first
    | exact Or.inr (by omega)
    | exact Or.inl (by omega)

/-- Reading a cell's recorded distance inside a well-shaped table. -/
theorem dcell_read {dist : List (List Int)} {rw rh : Nat}
    (hshape : GridOk rh rw (fun _ => True) dist) {v : Coords}
    (hv : cellInB rw rh v) : gget dist v.Y v.X = some (dcell dist v) := by
  obtain ⟨h1, h2, h3, h4⟩ := hv
  obtain ⟨t, ht, _⟩ := gget_inbounds hshape h3 h4 h1 h2
  rw [ht]
  unfold dcell
  rw [ht]
  rfl

/-- The recorded distance of the written cell. -/
theorem dcell_write_self {dist dist2 : List (List Int)} {p : Coords} {c : Int}
    (h : gset dist p.Y p.X c = some dist2) : dcell dist2 p = c := by
  unfold dcell
  rw [gget_gset_self h]
  rfl

/-- The recorded distance of any other cell after a write. -/
theorem dcell_write_other {dist dist2 : List (List Int)} {p v : Coords} {c : Int}
    (h : gset dist p.Y p.X c = some dist2) (hne : v ≠ p) :
    dcell dist2 v = dcell dist v := by
  unfold dcell
  rw [gget_gset_other h (by rw [coords_ne_iff] at hne; tauto)]

/-- The first row of a nonempty well-shaped grid has `cols` entries. -/
theorem gridOk_headD_length {α : Type} {rows cols : Nat} {P : α → Prop}
    {g : List (List α)} (hg : GridOk rows cols P g) (hrows : 0 < rows) :
    (g.headD []).length = cols := by
  obtain ⟨hlen, hall⟩ := hg
  cases g with
  | nil => simp at hlen; omega
  | cons r t => exact (hall r (List.mem_cons_self r t)).1

/-- Membership in a conditionally-present singleton. -/
theorem mem_if_singleton {c : Prop} [Decidable c] {w v : Coords} :
    v ∈ (if c then [w] else []) ↔ c ∧ v = w := by
  split
  next hc => simp [hc]
  next hc => simp [hc]

/-- On a well-shaped board with wall borders, the adjacency probe of
`CreateSpt` succeeds at every cell and returns exactly the passage-graph
neighbours of that cell. -/
theorem adjOf_spec {b : Board} {rw rh : Nat}
    (hb : GridOk (2 * rh + 1) (2 * rw + 1) (fun _ => True) b)
    (hbw : BorderWalls b) {p : Coords} (hp : cellInB rw rh p) :
    ∃ adj, adjOf b p = some adj ∧
      ∀ v, v ∈ adj ↔ adjB b rw rh p v := by
  obtain ⟨hx0, hx1, hy0, hy1⟩ := hp
  have hblen : b.length = 2 * rh + 1 := hb.1
  have hbhead : (b.headD []).length = 2 * rw + 1 :=
    gridOk_headD_length hb (by omega)
  obtain ⟨t1, ht1, _⟩ := gget_inbounds hb (y := p.Y * 2) (x := p.X * 2 + 1)
    (by omega) (by omega) (by omega) (by omega)
  obtain ⟨t2, ht2, _⟩ := gget_inbounds hb (y := p.Y * 2 + 2) (x := p.X * 2 + 1)
    (by omega) (by omega) (by omega) (by omega)
  obtain ⟨t3, ht3, _⟩ := gget_inbounds hb (y := p.Y * 2 + 1) (x := p.X * 2 + 2)
    (by omega) (by omega) (by omega) (by omega)
  obtain ⟨t4, ht4, _⟩ := gget_inbounds hb (y := p.Y * 2 + 1) (x := p.X * 2)
    (by omega) (by omega) (by omega) (by omega)
  refine ⟨(if t1 = TILE_EMPTY then [Coords.mk p.X (p.Y - 1)] else []) ++
    (if t2 = TILE_EMPTY then [Coords.mk p.X (p.Y + 1)] else []) ++
    (if t3 = TILE_EMPTY then [Coords.mk (p.X + 1) p.Y] else []) ++
    (if t4 = TILE_EMPTY then [Coords.mk (p.X - 1) p.Y] else []), ?_, ?_⟩
  · unfold adjOf
    rw [ht1, ht2, ht3, ht4]
    rfl
  intro v
  rw [List.mem_append, List.mem_append, List.mem_append,
    mem_if_singleton, mem_if_singleton, mem_if_singleton, mem_if_singleton]
  constructor
  · rintro (((⟨hc, rfl⟩ | ⟨hc, rfl⟩) | ⟨hc, rfl⟩) | ⟨hc, rfl⟩)
    · have hpy : 1 ≤ p.Y := by
        by_contra hcon
        have hpy0 : p.Y = 0 := by omega
        have hxx : (p.X * 2 + 1).toNat < (b.headD []).length := by omega
        obtain ⟨hw, _⟩ := hbw.1 _ hxx
        rw [show (((p.X * 2 + 1).toNat : Nat) : Int) = p.X * 2 + 1 from by
          omega] at hw
        rw [hpy0, show ((0 : Int)) * 2 = 0 from by norm_num] at ht1
        rw [ht1] at hw
        injection hw with hw2
        rw [hc] at hw2
        exact absurd hw2 (by decide)
      unfold adjB cellInB
      dsimp only
      refine ⟨⟨hx0, hx1, hy0, hy1⟩, ⟨hx0, hx1, by omega, by omega⟩,
        Or.inl ⟨rfl, Or.inr (by omega)⟩, ?_⟩
      rw [show p.Y + (p.Y - 1) + 1 = p.Y * 2 from by ring,
        show p.X + p.X + 1 = p.X * 2 + 1 from by ring, ht1, hc]
    · have hpy : p.Y + 1 < (rh : Int) := by
        by_contra hcon
        have hxx : (p.X * 2 + 1).toNat < (b.headD []).length := by omega
        obtain ⟨_, hw⟩ := hbw.1 _ hxx
        rw [show (((p.X * 2 + 1).toNat : Nat) : Int) = p.X * 2 + 1 from by
          omega, hblen, show (((2 * rh + 1 : Nat) : Int)) - 1 = p.Y * 2 + 2
          from by omega] at hw
        rw [ht2] at hw
        injection hw with hw2
        rw [hc] at hw2
        exact absurd hw2 (by decide)
      unfold adjB cellInB
      dsimp only
      refine ⟨⟨hx0, hx1, hy0, hy1⟩, ⟨hx0, hx1, by omega, by omega⟩,
        Or.inl ⟨rfl, Or.inl rfl⟩, ?_⟩
      rw [show p.Y + (p.Y + 1) + 1 = p.Y * 2 + 2 from by ring,
        show p.X + p.X + 1 = p.X * 2 + 1 from by ring, ht2, hc]
    · have hpx : p.X + 1 < (rw : Int) := by
        by_contra hcon
        have hyy : (p.Y * 2 + 1).toNat < b.length := by omega
        obtain ⟨_, hw⟩ := hbw.2 _ hyy
        rw [show (((p.Y * 2 + 1).toNat : Nat) : Int) = p.Y * 2 + 1 from by
          omega, hbhead, show (((2 * rw + 1 : Nat) : Int)) - 1 = p.X * 2 + 2
          from by omega] at hw
        rw [ht3] at hw
        injection hw with hw2
        rw [hc] at hw2
        exact absurd hw2 (by decide)
      unfold adjB cellInB
      dsimp only
      refine ⟨⟨hx0, hx1, hy0, hy1⟩, ⟨by omega, by omega, hy0, hy1⟩,
        Or.inr ⟨rfl, Or.inl rfl⟩, ?_⟩
      rw [show p.Y + p.Y + 1 = p.Y * 2 + 1 from by ring,
        show p.X + (p.X + 1) + 1 = p.X * 2 + 2 from by ring, ht3, hc]
    · have hpx : 1 ≤ p.X := by
        by_contra hcon
        have hpx0 : p.X = 0 := by omega
        have hyy : (p.Y * 2 + 1).toNat < b.length := by omega
        obtain ⟨hw, _⟩ := hbw.2 _ hyy
        rw [show (((p.Y * 2 + 1).toNat : Nat) : Int) = p.Y * 2 + 1 from by
          omega] at hw
        rw [hpx0, show ((0 : Int)) * 2 = 0 from by norm_num] at ht4
        rw [ht4] at hw
        injection hw with hw2
        rw [hc] at hw2
        exact absurd hw2 (by decide)
      unfold adjB cellInB
      dsimp only
      refine ⟨⟨hx0, hx1, hy0, hy1⟩, ⟨by omega, by omega, hy0, hy1⟩,
        Or.inr ⟨rfl, Or.inr (by omega)⟩, ?_⟩
      rw [show p.Y + p.Y + 1 = p.Y * 2 + 1 from by ring,
        show p.X + (p.X - 1) + 1 = p.X * 2 from by ring, ht4, hc]
  · rintro ⟨hu, ⟨hv1, hv2, hv3, hv4⟩, hgeo, hconn⟩
    rcases hgeo with ⟨hgx, hgy | hgy⟩ | ⟨hgy, hgx | hgx⟩
    · rw [show p.Y + v.Y + 1 = p.Y * 2 + 2 from by omega,
        show p.X + v.X + 1 = p.X * 2 + 1 from by omega, ht2] at hconn
      injection hconn with ht
      have hveq : v = Coords.mk p.X (p.Y + 1) := by
        cases v with
        | mk vx vy =>
            dsimp only at hgx hgy
            rw [← hgx, hgy]
      tauto
    · rw [show p.Y + v.Y + 1 = p.Y * 2 from by omega,
        show p.X + v.X + 1 = p.X * 2 + 1 from by omega, ht1] at hconn
      injection hconn with ht
      have hveq : v = Coords.mk p.X (p.Y - 1) := by
        cases v with
        | mk vx vy =>
            dsimp only at hgx hgy
            rw [← hgx, show p.Y - 1 = vy from by omega]
      tauto
    · rw [show p.Y + v.Y + 1 = p.Y * 2 + 1 from by omega,
        show p.X + v.X + 1 = p.X * 2 + 2 from by omega, ht3] at hconn
      injection hconn with ht
      have hveq : v = Coords.mk (p.X + 1) p.Y := by
        cases v with
        | mk vx vy =>
            dsimp only at hgx hgy
            rw [hgx, ← hgy]
      tauto
    · rw [show p.Y + v.Y + 1 = p.Y * 2 + 1 from by omega,
        show p.X + v.X + 1 = p.X * 2 from by omega, ht4] at hconn
      injection hconn with ht
      have hveq : v = Coords.mk (p.X - 1) p.Y := by
        cases v with
        | mk vx vy =>
            dsimp only at hgx hgy
            rw [← hgy, show p.X - 1 = vx from by omega]
      tauto

/-- One relaxation step that improves the neighbour's recorded distance. -/
theorem relaxAll_cons_lt (cur pt : Coords) (rest : List Coords)
    (dist dist' : List (List Int)) (q : List QItem) (dc dp : Int)
    (h1 : gget dist cur.Y cur.X = some dc)
    (h2 : gget dist pt.Y pt.X = some dp)
    (hlt : goAdd1 dc < dp)
    (h3 : gset dist pt.Y pt.X (goAdd1 dc) = some dist') :
    relaxAll cur (pt :: rest) dist q =
      relaxAll cur rest dist' (heapPush q (QItem.mk pt (goAdd1 dc))) := by
  rw [relaxAll, h1]
  show (gget dist pt.Y pt.X).bind (fun dpt =>
      if goAdd1 dc < dpt then
        (gset dist pt.Y pt.X (goAdd1 dc)).bind (fun dist2 =>
          relaxAll cur rest dist2 (heapPush q (QItem.mk pt (goAdd1 dc))))
      else relaxAll cur rest dist q) = _
  rw [h2]
  show (if goAdd1 dc < dp then
      (gset dist pt.Y pt.X (goAdd1 dc)).bind (fun dist2 =>
        relaxAll cur rest dist2 (heapPush q (QItem.mk pt (goAdd1 dc))))
    else relaxAll cur rest dist q) = _
  rw [if_pos hlt, h3]
  rfl

/-- One relaxation step that leaves the neighbour's distance unchanged. -/
theorem relaxAll_cons_ge (cur pt : Coords) (rest : List Coords)
    (dist : List (List Int)) (q : List QItem) (dc dp : Int)
    (h1 : gget dist cur.Y cur.X = some dc)
    (h2 : gget dist pt.Y pt.X = some dp)
    (hge : ¬ goAdd1 dc < dp) :
    relaxAll cur (pt :: rest) dist q = relaxAll cur rest dist q := by
  rw [relaxAll, h1]
  show (gget dist pt.Y pt.X).bind (fun dpt =>
      if goAdd1 dc < dpt then
        (gset dist pt.Y pt.X (goAdd1 dc)).bind (fun dist2 =>
          relaxAll cur rest dist2 (heapPush q (QItem.mk pt (goAdd1 dc))))
      else relaxAll cur rest dist q) = _
  rw [h2]
  show (if goAdd1 dc < dp then
      (gset dist pt.Y pt.X (goAdd1 dc)).bind (fun dist2 =>
        relaxAll cur rest dist2 (heapPush q (QItem.mk pt (goAdd1 dc))))
    else relaxAll cur rest dist q) = _
  rw [if_neg hge]

/-- The sentinel test of `finCount`, unfolded. -/
theorem finCount_pred {d : List (List Int)} {a : Coords} :
    ((!(dcell d a == maxInt)) = true) ↔ dcell d a ≠ maxInt := by
  simp only [Bool.not_eq_true', beq_eq_false_iff_ne]

/-- The relaxation pass of `CreateSpt` preserves the loop invariant: run
on the popped cell's remaining neighbour list, it neither crashes nor
breaks any invariant field, it never increases the distance sum, and it
leaves the queue length unchanged whenever it leaves the sum unchanged. -/
theorem relaxAll_spec (b : Board) (rw rh : Nat) (s cur : Coords)
    (hsize : rh * rw < 2 ^ 62) (hcur : cellInB rw rh cur) :
    ∀ (rest : List Coords) (dist : List (List Int)) (q : List QItem),
      (∀ pt ∈ rest, adjB b rw rh cur pt) →
      GridOk rh rw (fun _ => True) dist →
      dcell dist s = 0 →
      (∀ v, cellInB rw rh v → 0 ≤ dcell dist v ∧ dcell dist v ≤ maxInt) →
      (∀ v, cellInB rw rh v → dcell dist v ≠ maxInt →
        reachB b rw rh s (dcell dist v).toNat v = true) →
      (∀ v, cellInB rw rh v → dcell dist v ≠ maxInt →
        dcell dist v < (finCount rw rh dist : Int)) →
      (∀ it ∈ q, cellInB rw rh it.pos ∧ dcell dist it.pos ≤ it.weight ∧
        it.weight < (finCount rw rh dist : Int)) →
      (∀ u v, adjB b rw rh u v →
        dcell dist v ≤ dcell dist u + 1 ∨ (∃ it ∈ q, it.pos = u) ∨
        (u = cur ∧ v ∈ rest)) →
      dcell dist cur ≠ maxInt →
      ∃ dist2 q2, relaxAll cur rest dist q = some (dist2, q2) ∧
        SptInv b rw rh s dist2 q2 ∧
        sumD rw rh dist2 ≤ sumD rw rh dist ∧
        (sumD rw rh dist2 = sumD rw rh dist → q2.length = q.length) := by
  intro rest
  induction rest with
  | nil =>
      intro dist q hadj hshape hsrc0 hlower hrealize hbounded hqueue hedges hcurM
      refine ⟨dist, q, rfl, ?_, le_refl _, fun _ => rfl⟩
      refine ⟨hshape, hsrc0, hlower, hrealize, hbounded, hqueue, ?_⟩
      intro u v huv
      rcases hedges u v huv with h | h | h
      · exact Or.inl h
      · exact Or.inr h
      · exact absurd h.2 (List.not_mem_nil v)
  | cons pt rest ih =>
      intro dist q hadj hshape hsrc0 hlower hrealize hbounded hqueue hedges hcurM
      have hadjpt : adjB b rw rh cur pt := hadj pt (List.mem_cons_self pt rest)
      have hadjrest : ∀ x ∈ rest, adjB b rw rh cur x :=
        fun x hx => hadj x (List.mem_cons_of_mem pt hx)
      have hptB : cellInB rw rh pt := hadjpt.2.1
      have hnecp : cur ≠ pt := adjB_ne hadjpt
      have hgcur := dcell_read hshape hcur
      have hgpt := dcell_read hshape hptB
      have hmax : maxInt = 9223372036854775807 := by decide
      have h62 : (2 : Nat) ^ 62 = 4611686018427387904 := by norm_num
      rw [h62] at hsize
      have hfin_le := finCount_le rw rh dist
      have hD0 := (hlower cur hcur).1
      have hDlt : dcell dist cur < (finCount rw rh dist : Int) :=
        hbounded cur hcur hcurM
      have hnew_eq : goAdd1 (dcell dist cur) = dcell dist cur + 1 :=
        goAdd1_eq hD0 (by omega)
      by_cases hcond : dcell dist cur + 1 < dcell dist pt
      · obtain ⟨dist', hset⟩ := by
          obtain ⟨h1, h2, h3, h4⟩ := hptB
          exact gset_inbounds hshape h3 h4 h1 h2 (dcell dist cur + 1)
        have hd_self : dcell dist' pt = dcell dist cur + 1 :=
          dcell_write_self hset
        have hd_other : ∀ v, v ≠ pt → dcell dist' v = dcell dist v :=
          fun v hv => dcell_write_other hset hv
        have hd_cur : dcell dist' cur = dcell dist cur := hd_other cur hnecp
        have hmono : ∀ v, dcell dist' v ≤ dcell dist v := by
          intro v
          by_cases hv : v = pt
          · subst hv
            rw [hd_self]
            omega
          · rw [hd_other v hv]
        have hpts : pt ≠ s := by
          intro he
          rw [he, hsrc0] at hcond
          omega
        have hfc : finCount rw rh dist ≤ finCount rw rh dist' := by
          apply countP_mono_of_imp
          intro a _ hpa
          rw [finCount_pred] at hpa ⊢
          by_cases ha : a = pt
          · subst ha
            rw [hd_self]
            omega
          · rw [hd_other a ha]
            exact hpa
        have hnewfin : dcell dist cur + 1 < (finCount rw rh dist' : Int) := by
          by_cases hdm : dcell dist pt = maxInt
          · have hflip : finCount rw rh dist < finCount rw rh dist' := by
              apply countP_lt_of_flip _ _ _ ?_ pt (mem_cellList.mpr hptB)
              · simp [hdm]
              · rw [finCount_pred, hd_self]
                omega
              · intro a _ hpa
                rw [finCount_pred] at hpa ⊢
                by_cases ha : a = pt
                · subst ha
                  rw [hd_self]
                  omega
                · rw [hd_other a ha]
                  exact hpa
            omega
          · have := hbounded pt hptB hdm
            omega
        have hsum_lt : sumD rw rh dist' < sumD rw rh dist := by
          apply sum_map_lt _ _ _ ?_ pt (mem_cellList.mpr hptB)
          · have h1 := hd_self
            have h2 := (hlower pt hptB).1
            omega
          · intro a _
            have := hmono a
            omega
        obtain ⟨dist2, q2, heq2, hinv2, hsum2, _⟩ := by
          refine ih dist' (heapPush q (QItem.mk pt (dcell dist cur + 1)))
            hadjrest (gset_gridOk hshape trivial hset) ?_ ?_ ?_ ?_ ?_ ?_ ?_
          · rw [hd_other s (Ne.symm hpts)]
            exact hsrc0
          · intro v hv
            by_cases hvp : v = pt
            · subst hvp
              rw [hd_self]
              omega
            · rw [hd_other v hvp]
              exact hlower v hv
          · intro v hv hvm
            by_cases hvp : v = pt
            · subst hvp
              rw [hd_self] at hvm ⊢
              have hre := hrealize cur hcur hcurM
              rw [show (dcell dist cur + 1).toNat =
                (dcell dist cur).toNat + 1 from by omega]
              show (reachB b rw rh s (dcell dist cur).toNat v ||
                (cellList rw rh).any (fun u =>
                  decide (adjB b rw rh u v) &&
                    reachB b rw rh s (dcell dist cur).toNat u)) = true
              have hy : ((cellList rw rh).any (fun u =>
                  decide (adjB b rw rh u v) &&
                    reachB b rw rh s (dcell dist cur).toNat u)) = true := by
                rw [List.any_eq_true]
                refine ⟨cur, mem_cellList.mpr hcur, ?_⟩
                rw [Bool.and_eq_true]
                exact ⟨decide_eq_true hadjpt, hre⟩
              rw [hy, Bool.or_true]
            · rw [hd_other v hvp] at hvm ⊢
              exact hrealize v hv hvm
          · intro v hv hvm
            by_cases hvp : v = pt
            · subst hvp
              rw [hd_self] at hvm ⊢
              exact hnewfin
            · rw [hd_other v hvp] at hvm ⊢
              have := hbounded v hv hvm
              omega
          · intro it hit
            rcases mem_heapPush.mp hit with hin | hnew
            · obtain ⟨hq1, hq2, hq3⟩ := hqueue it hin
              have := hmono it.pos
              exact ⟨hq1, by omega, by omega⟩
            · subst hnew
              exact ⟨hptB, by rw [hd_self], hnewfin⟩
          · intro u v huv
            rcases hedges u v huv with hL | hQ | hT
            · by_cases hup : u = pt
              · subst hup
                exact Or.inr (Or.inl ⟨QItem.mk u (dcell dist cur + 1),
                  mem_heapPush.mpr (Or.inr rfl), rfl⟩)
              · have h1 := hd_other u hup
                have h2 := hmono v
                exact Or.inl (by omega)
            · obtain ⟨it, hitq, hpos⟩ := hQ
              exact Or.inr (Or.inl ⟨it, mem_heapPush.mpr (Or.inl hitq), hpos⟩)
            · obtain ⟨hu, hv⟩ := hT
              rcases List.mem_cons.mp hv with hvp | hvr
              · subst hu
                subst hvp
                rw [hd_self, hd_cur]
                exact Or.inl (by omega)
              · exact Or.inr (Or.inr ⟨hu, hvr⟩)
          · rw [hd_cur]
            exact hcurM
        have hstep := relaxAll_cons_lt cur pt rest dist dist' q
          (dcell dist cur) (dcell dist pt) hgcur hgpt
          (by rw [hnew_eq]; exact hcond) (by rw [hnew_eq]; exact hset)
        rw [hnew_eq] at hstep
        refine ⟨dist2, q2, ?_, hinv2, by omega, fun h => by omega⟩
        rw [hstep]
        exact heq2
      · have hstep := relaxAll_cons_ge cur pt rest dist q
          (dcell dist cur) (dcell dist pt) hgcur hgpt
          (by rw [hnew_eq]; exact hcond)
        obtain ⟨dist2, q2, heq2, hinv2, hsum2, hlen2⟩ := by
          refine ih dist q hadjrest hshape hsrc0 hlower hrealize hbounded
            hqueue ?_ hcurM
          intro u v huv
          rcases hedges u v huv with hL | hQ | hT
          · exact Or.inl hL
          · exact Or.inr (Or.inl hQ)
          · obtain ⟨hu, hv⟩ := hT
            rcases List.mem_cons.mp hv with hvp | hvr
            · subst hu
              subst hvp
              exact Or.inl (by omega)
            · exact Or.inr (Or.inr ⟨hu, hvr⟩)
        refine ⟨dist2, q2, ?_, hinv2, hsum2, hlen2⟩
        rw [hstep]
        exact heq2

/-- Unfolding of one pop-and-relax iteration of the main loop. -/
theorem sptLoop_step (b : Board) (f : Nat) (dist : List (List Int))
    (q : List QItem) (it : QItem) (adj : List Coords)
    (dist2 : List (List Int)) (q2 : List QItem)
    (h1 : q.getLast? = some it) (h2 : adjOf b it.pos = some adj)
    (h3 : relaxAll it.pos adj dist q.dropLast = some (dist2, q2)) :
    sptLoop b (f + 1) dist q = sptLoop b f dist2 q2 := by
  rw [sptLoop, h1]
  show (match adjOf b it.pos with
      | none => RunRes.crash
      | some adj =>
          match relaxAll it.pos adj dist q.dropLast with
          | none => RunRes.crash
          | some (d2, p2) => sptLoop b f d2 p2) = _
  rw [h2]
  show (match relaxAll it.pos adj dist q.dropLast with
      | none => RunRes.crash
      | some (d2, p2) => sptLoop b f d2 p2) = _
  rw [h3]

/-- From any state satisfying the invariant, the main loop of `CreateSpt`
terminates without crashing, and the invariant holds of the final table
with an empty queue.  The loop measure is the pair (distance sum, queue
length) in lexicographic order. -/
theorem sptLoop_spec (b : Board) (rw rh : Nat) (s : Coords)
    (hb : GridOk (2 * rh + 1) (2 * rw + 1) (fun _ => True) b)
    (hbw : BorderWalls b) (hsize : rh * rw < 2 ^ 62) :
    ∀ (a k : Nat) (dist : List (List Int)) (q : List QItem),
      sumD rw rh dist = a → q.length = k → SptInv b rw rh s dist q →
      ∃ fuel dist2, sptLoop b fuel dist q = RunRes.ok dist2 ∧
        SptInv b rw rh s dist2 [] := by
  intro a
  induction a using Nat.strong_induction_on with
  | _ a ihA =>
      intro k
      induction k using Nat.strong_induction_on with
      | _ k ihK =>
          intro dist q ha hk hinv
          cases hq : q.getLast? with
          | none =>
              have hqnil : q = [] := List.getLast?_eq_none_iff.mp hq
              subst hqnil
              exact ⟨1, dist, rfl, hinv⟩
          | some it =>
              obtain ⟨q', hq'⟩ := List.getLast?_eq_some_iff.mp hq
              subst hq'
              have hitmem : it ∈ q' ++ [it] := by
                rw [List.mem_append]
                exact Or.inr (List.mem_singleton.mpr rfl)
              obtain ⟨hitB, hitle, hitlt⟩ := hinv.queue it hitmem
              have hmax : maxInt = 9223372036854775807 := by decide
              have hsize' := hsize
              rw [show (2 : Nat) ^ 62 = 4611686018427387904 from by norm_num]
                at hsize'
              have hfin_le := finCount_le rw rh dist
              have hcurM : dcell dist it.pos ≠ maxInt := by omega
              obtain ⟨adj, hadjeq, hadjiff⟩ := adjOf_spec hb hbw hitB
              have hdrop : (q' ++ [it]).dropLast = q' := List.dropLast_concat
              have hedges' : ∀ u v, adjB b rw rh u v →
                  dcell dist v ≤ dcell dist u + 1 ∨
                  (∃ it2 ∈ q', it2.pos = u) ∨ (u = it.pos ∧ v ∈ adj) := by
                intro u v huv
                rcases hinv.edges u v huv with hL | ⟨it2, hit2, hpos⟩
                · exact Or.inl hL
                · rcases List.mem_append.mp hit2 with hin | hone
                  · exact Or.inr (Or.inl ⟨it2, hin, hpos⟩)
                  · have heqit : it2 = it := List.mem_singleton.mp hone
                    subst heqit
                    refine Or.inr (Or.inr ⟨hpos.symm, ?_⟩)
                    apply (hadjiff v).mpr
                    rw [hpos]
                    exact huv
              obtain ⟨dist2, q2, heq, hinv2, hsum, hlen⟩ :=
                relaxAll_spec b rw rh s it.pos hsize hitB adj dist q'
                  (fun x hx => (hadjiff x).mp hx)
                  hinv.shape hinv.src0 hinv.lower hinv.realize hinv.bounded
                  (fun it2 hit2 => hinv.queue it2
                    (by rw [List.mem_append]; exact Or.inl hit2))
                  hedges' hcurM
              rcases Nat.lt_or_ge (sumD rw rh dist2) a with hlt | hge
              · obtain ⟨fuel, dist3, hrun, hfin⟩ :=
                  ihA (sumD rw rh dist2) hlt q2.length dist2 q2 rfl rfl hinv2
                refine ⟨fuel + 1, dist3, ?_, hfin⟩
                rw [sptLoop_step b fuel dist (q' ++ [it]) it adj dist2 q2
                  hq hadjeq (by rw [hdrop]; exact heq)]
                exact hrun
              · have hsum_eq : sumD rw rh dist2 = sumD rw rh dist := by omega
                have hlen_eq := hlen hsum_eq
                have hklt : q2.length < k := by
                  rw [hlen_eq, ← hk, List.length_append]
                  simp
                obtain ⟨fuel, dist3, hrun, hfin⟩ :=
                  ihK q2.length hklt dist2 q2 (by omega) rfl hinv2
                refine ⟨fuel + 1, dist3, ?_, hfin⟩
                rw [sptLoop_step b fuel dist (q' ++ [it]) it adj dist2 q2
                  hq hadjeq (by rw [hdrop]; exact heq)]
                exact hrun

/-- With the queue exhausted, every edge is relaxed, so each recorded
distance is a lower bound on every reach level: the table dominates no
true shortest-path distance. -/
theorem dcell_le_of_reach (b : Board) (rw rh : Nat) (s : Coords)
    (dist : List (List Int)) (hinv : SptInv b rw rh s dist []) :
    ∀ (n : Nat) (v : Coords), cellInB rw rh v →
      reachB b rw rh s n v = true → dcell dist v ≤ (n : Int) := by
  intro n
  induction n with
  | zero =>
      intro v _ hr
      have hvs : v = s := of_decide_eq_true hr
      subst hvs
      rw [hinv.src0]
      omega
  | succ n ihn =>
      intro v hv hr
      have hr2 : (reachB b rw rh s n v ||
          (cellList rw rh).any (fun u => decide (adjB b rw rh u v) &&
            reachB b rw rh s n u)) = true := hr
      rw [Bool.or_eq_true] at hr2
      rcases hr2 with h | h
      · have := ihn v hv h
        omega
      · rw [List.any_eq_true] at h
        obtain ⟨u, _, hband⟩ := h
        rw [Bool.and_eq_true] at hband
        have hadj : adjB b rw rh u v := of_decide_eq_true hband.1
        have hdu := ihn u hadj.1 hband.2
        rcases hinv.edges u v hadj with hL | ⟨it, hit, _⟩
        · omega
        · exact absurd hit (List.not_mem_nil it)

/-- Claim C5: on any board with odd dimensions, rectangular shape and an
all-Wall border, `CreateSpt` called at an in-bounds cell centre returns
(for enough fuel) a table without error in which every cell reachable
from the source gets exactly its unit-weight shortest-path distance —
the recorded value is a reach level and no smaller reach level exists —
while every unreachable cell keeps the `math.MaxInt` sentinel, a valid
non-error outcome (the size bound only keeps the cell count below the
`int` overflow threshold). -/
theorem createSpt_computes_shortest_paths
    (rw rh : Nat) (b : Board) (s : Coords)
    (hb : GridOk (2 * rh + 1) (2 * rw + 1) (fun _ => True) b)
    (hbw : BorderWalls b) (hs : cellInB rw rh s)
    (hsize : rh * rw < 2 ^ 62) :
    ∃ fuel dist,
      CreateSpt b (Coords.mk (2 * s.X + 1) (2 * s.Y + 1)) fuel =
        RunRes.ok dist ∧
      ∀ v, cellInB rw rh v →
        (0 ≤ dcell dist v ∧ dcell dist v ≤ maxInt) ∧
        (dcell dist v ≠ maxInt →
          reachB b rw rh s (dcell dist v).toNat v = true) ∧
        (∀ n : Nat, reachB b rw rh s n v = true →
          dcell dist v ≤ (n : Int)) := by
  obtain ⟨hsx0, hsx1, hsy0, hsy1⟩ := id hs
  have hblen : b.length = 2 * rh + 1 := hb.1
  have hbhead : (b.headD []).length = 2 * rw + 1 :=
    gridOk_headD_length hb (by omega)
  have hmax : maxInt = 9223372036854775807 := by decide
  have hsize' := hsize
  rw [show (2 : Nat) ^ 62 = 4611686018427387904 from by norm_num] at hsize'
  have hg1 : ¬ (b.length % 2 ≠ 1 ∨ (b.headD []).length % 2 ≠ 1) := by
    rw [hblen, hbhead]
    omega
  have hg2 : ¬ ((Coords.mk (2 * s.X + 1) (2 * s.Y + 1)).X.tmod 2 ≠ 1 ∨
      (Coords.mk (2 * s.X + 1) (2 * s.Y + 1)).Y.tmod 2 ≠ 1) := by
    dsimp only
    rw [Int.tmod_eq_emod (by omega) (by omega),
      Int.tmod_eq_emod (by omega) (by omega)]
    omega
  have hshape0 : GridOk rh rw (fun c : Int => c = maxInt)
      (List.replicate rh (List.replicate rw maxInt)) := by
    refine ⟨by simp, ?_⟩
    intro row hrow
    rw [List.eq_of_mem_replicate hrow]
    refine ⟨by simp, ?_⟩
    intro c hc
    exact List.eq_of_mem_replicate hc
  have hshape0' : GridOk rh rw (fun _ : Int => True)
      (List.replicate rh (List.replicate rw maxInt)) :=
    GridOk.mono hshape0 (fun _ _ => trivial)
  obtain ⟨dist1, hset1⟩ :=
    gset_inbounds hshape0' hsy0 hsy1 hsx0 hsx1 (0 : Int)
  have hshape1 : GridOk rh rw (fun _ : Int => True) dist1 :=
    gset_gridOk hshape0' trivial hset1
  have hd0 : ∀ v, cellInB rw rh v →
      dcell (List.replicate rh (List.replicate rw maxInt)) v = maxInt := by
    intro v ⟨h1, h2, h3, h4⟩
    obtain ⟨t, ht, htP⟩ := gget_inbounds hshape0 h3 h4 h1 h2
    unfold dcell
    rw [ht]
    exact htP
  have hd1self : dcell dist1 s = 0 := dcell_write_self hset1
  have hd1other : ∀ v, v ≠ s →
      dcell dist1 v = dcell (List.replicate rh (List.replicate rw maxInt)) v :=
    fun v hv => dcell_write_other hset1 hv
  have hfin1 : 0 < finCount rw rh dist1 := by
    unfold finCount
    rw [List.countP_pos_iff]
    refine ⟨s, mem_cellList.mpr hs, ?_⟩
    rw [finCount_pred, hd1self]
    omega
  have hlower1 : ∀ v, cellInB rw rh v →
      0 ≤ dcell dist1 v ∧ dcell dist1 v ≤ maxInt := by
    intro v hv
    by_cases hvs : v = s
    · subst hvs
      rw [hd1self]
      omega
    · rw [hd1other v hvs, hd0 v hv]
      omega
  have hinv1 : SptInv b rw rh s dist1
      (heapPush [] (QItem.mk (Coords.mk s.X s.Y) 0)) := by
    have hmk : Coords.mk s.X s.Y = s := by
      cases s
      rfl
    rw [hmk]
    refine ⟨hshape1, hd1self, hlower1, ?_, ?_, ?_, ?_⟩
    · intro v hv hvm
      by_cases hvs : v = s
      · subst hvs
        rw [hd1self]
        exact decide_eq_true rfl
      · rw [hd1other v hvs, hd0 v hv] at hvm
        exact absurd rfl hvm
    · intro v hv hvm
      by_cases hvs : v = s
      · subst hvs
        rw [hd1self]
        omega
      · rw [hd1other v hvs, hd0 v hv] at hvm
        exact absurd rfl hvm
    · intro it hit
      rcases mem_heapPush.mp hit with h | h
      · exact absurd h (List.not_mem_nil it)
      · subst h
        refine ⟨hs, ?_, ?_⟩
        · rw [hd1self]
        · show (0 : Int) < (finCount rw rh dist1 : Int)
          omega
    · intro u v huv
      by_cases hu : u = s
      · exact Or.inr ⟨QItem.mk s 0, mem_heapPush.mpr (Or.inr rfl), hu.symm⟩
      · have h1 := (hlower1 v huv.2.1).2
        have h2 := hd1other u hu
        have h3 := hd0 u huv.1
        exact Or.inl (by omega)
  obtain ⟨fuel, dist2, hrun, hfin⟩ :=
    sptLoop_spec b rw rh s hb hbw hsize (sumD rw rh dist1)
      (heapPush [] (QItem.mk (Coords.mk s.X s.Y) 0)).length dist1
      (heapPush [] (QItem.mk (Coords.mk s.X s.Y) 0)) rfl rfl hinv1
  refine ⟨fuel, dist2, ?_, ?_⟩
  · unfold CreateSpt
    rw [if_neg hg1, if_neg hg2]
    show (match gset
        (List.replicate ((b.length - 1) / 2)
          (List.replicate (((b.headD []).length - 1) / 2) maxInt))
        ((2 * s.Y + 1 - 1).tdiv 2) ((2 * s.X + 1 - 1).tdiv 2) 0 with
      | none => RunRes.crash
      | some d1 =>
          sptLoop b fuel d1
            (heapPush []
              (QItem.mk
                (Coords.mk ((2 * s.X + 1 - 1).tdiv 2)
                  ((2 * s.Y + 1 - 1).tdiv 2)) 0))) = RunRes.ok dist2
    rw [show (2 * s.X + 1 - 1 : Int) = 2 * s.X from by ring,
      show (2 * s.Y + 1 - 1 : Int) = 2 * s.Y from by ring,
      Int.mul_tdiv_cancel_left s.X (by norm_num),
      Int.mul_tdiv_cancel_left s.Y (by norm_num),
      hblen, hbhead,
      show (2 * rh + 1 - 1) / 2 = rh from by omega,
      show (2 * rw + 1 - 1) / 2 = rw from by omega,
      hset1]
    exact hrun
  · intro v hv
    exact ⟨hfin.lower v hv, hfin.realize v hv,
      fun n hr => dcell_le_of_reach b rw rh s dist2 hfin n v hv hr⟩

/-- Witness for Claim C5: the hand-built 5×5 straight-corridor board of
the specification's scenario, with source the left end of the corridor.
The returned table records distance 1 = (corridor cell count) − 1 at the
far end and the sentinel at the two sealed-off cells, and the theorem
applies at this input. -/
theorem createSpt_computes_shortest_paths_witness :
    (GridOk (2 * 2 + 1) (2 * 2 + 1) (fun _ : Char => True) boardCorridor ∧
      BorderWalls boardCorridor ∧ cellInB 2 2 (Coords.mk 0 0) ∧
      2 * 2 < 2 ^ 62 ∧
      CreateSpt boardCorridor (Coords.mk 1 1) 20 =
        RunRes.ok [[0, 1], [maxInt, maxInt]]) ∧
    (∃ fuel dist,
      CreateSpt boardCorridor (Coords.mk 1 1) fuel = RunRes.ok dist ∧
      ∀ v, cellInB 2 2 v →
        (0 ≤ dcell dist v ∧ dcell dist v ≤ maxInt) ∧
        (dcell dist v ≠ maxInt →
          reachB boardCorridor 2 2 (Coords.mk 0 0) (dcell dist v).toNat v
            = true) ∧
        (∀ n : Nat, reachB boardCorridor 2 2 (Coords.mk 0 0) n v = true →
          dcell dist v ≤ (n : Int))) :=
  ⟨⟨by simp [GridOk, boardCorridor], by unfold BorderWalls; decide, by decide,
    by norm_num, by decide⟩,
    createSpt_computes_shortest_paths 2 2 boardCorridor (Coords.mk 0 0)
      (by simp [GridOk, boardCorridor]) (by unfold BorderWalls; decide)
      (by decide) (by norm_num)⟩

end ApMaze
